import Mathlib

/-!
Verification development for the virtual-project compiler and session-scoped
project resolver of the remotion-mcp server (`utils.ts`).

The embedding models JavaScript objects that map string keys to string values
as association lists in insertion order (`FileMap`, `PropRecord`), mirrors the
relevant `path.posix` helpers from Node (`normalize`, `dirname`, `extname`,
`resolve`, `join`) on those strings, and treats the external esbuild bundler
as an opaque function parameter.  Property-record values are opaque to every
function modelled here, so they are represented by strings.
-/

/-- Association list in JavaScript object insertion order: virtual path to
source text. -/
abbrev FileMap := List (String × String)

/-- Property records (`defaultProps` / `inputProps`); values are opaque. -/
abbrev PropRecord := List (String × String)

/-- Lookup of a key in a JavaScript object: first entry with that key. -/
def getVal (m : FileMap) (k : String) : Option String :=
  match m with
  | [] => none
  | (k₀, v₀) :: rest => if k₀ = k then some v₀ else getVal rest k

/-- The `key in object` test. -/
def hasKey (m : FileMap) (k : String) : Bool :=
  m.any (fun kv => kv.1 == k)

/-- `delete object[key]`: removes the entry with the given key. -/
def eraseKey (m : FileMap) (k : String) : FileMap :=
  m.filter (fun kv => !(kv.1 == k))

/-- Keys of an object, in insertion order (`Object.keys`). -/
def keysOf (m : FileMap) : List String := m.map (·.1)

/-- Key-uniqueness invariant of a JavaScript object. -/
def NodupKeys (m : FileMap) : Prop := (keysOf m).Nodup

/-- Object spread `{...a, ...b}`: the entries of `a` in order with values
overridden by `b` on shared keys, followed by the entries of `b` whose keys
are new, in order. -/
def objSpread (a b : FileMap) : FileMap :=
  (a.map fun kv =>
    match getVal b kv.1 with
    | some v => (kv.1, v)
    | none => kv) ++
  b.filter (fun kv => !(hasKey a kv.1))

/-- Assignment `object[k] = v`: updates in place when the key exists
(keeping its original position), otherwise appends. -/
def objSet (m : FileMap) (k : String) (v : String) : FileMap :=
  if hasKey m k then
    m.map (fun kv => if kv.1 = k then (k, v) else kv)
  else
    m ++ [(k, v)]

/-- `Set.add` semantics on an insertion-ordered list: appends unless present. -/
def addCand (l : List String) (x : String) : List String :=
  if x ∈ l then l else l ++ [x]

/-- Byte-wise prefix test on character lists. -/
def chPre : List Char → List Char → Bool
  | [], _ => true
  | _ :: _, [] => false
  | a :: as, b :: bs => a == b && chPre as bs

/-- Substring occurrence test on character lists. -/
def chSub (small : List Char) : List Char → Bool
  | [] => small.isEmpty
  | c :: rest => chPre small (c :: rest) || chSub small rest

/-- `t.includes(s)` on JavaScript strings. -/
def strIncludes (t s : String) : Bool := chSub s.data t.data

/-- Lexicographic comparison of character lists by code point, the order
used by the default JavaScript `Array.prototype.sort` on these keys. -/
def lexLe : List Char → List Char → Bool
  | [], _ => true
  | _ :: _, [] => false
  | a :: as, b :: bs =>
    if a.val < b.val then true
    else if b.val < a.val then false
    else lexLe as bs

/-- Insert a string into a lexicographically sorted list of strings. -/
def insertSorted (x : String) : List String → List String
  | [] => [x]
  | y :: ys => if lexLe x.data y.data then x :: y :: ys else y :: insertSorted x ys

/-- `Array.prototype.sort()` with the default comparator (insertion sort;
the JavaScript sort is stable and these keys are compared by code unit). -/
def sortStrings : List String → List String
  | [] => []
  | x :: xs => insertSorted x (sortStrings xs)

/-- `Array.prototype.join(sep)`. -/
def joinSep (sep : String) : List String → String
  | [] => ""
  | [x] => x
  | x :: y :: ys => x ++ sep ++ joinSep sep (y :: ys)

/-- `s.startsWith(pre)`. -/
def strStartsWith (s pre : String) : Bool := chPre pre.data s.data

/-- `s.endsWith(suf)`. -/
def strEndsWith (s suf : String) : Bool := chPre suf.data.reverse s.data.reverse

/-- `s.toLowerCase()` (code-point-wise, which agrees on the ASCII data the
hint pass inspects). -/
def strToLower (s : String) : String := String.mk (s.data.map Char.toLower)

/-- Splitting a character list at a separator character, keeping empty
segments (the behavior of `String.prototype.split` with a one-character
separator). -/
def splitCharAux (sep : Char) : List Char → List Char → List String
  | [], acc => [String.mk acc.reverse]
  | c :: rest, acc =>
    if c = sep then String.mk acc.reverse :: splitCharAux sep rest []
    else splitCharAux sep rest (c :: acc)

/-- `s.split(sep)` for a one-character separator. -/
def splitChar (s : String) (sep : Char) : List String := splitCharAux sep s.data []

/-! ## The `path.posix` helpers used by `utils.ts` -/

/-- Segment processing of `path.posix` normalization for absolute paths
(`allowAboveRoot = false`): empty and `.` segments vanish, `..` pops. -/
def processSegs (segs : List String) : List String :=
  segs.foldl
    (fun acc seg =>
      if seg = "" ∨ seg = "." then acc
      else if seg = ".." then acc.dropLast
      else acc ++ [seg])
    []

/-- `path.posix.normalize` on an absolute input (as in `utils.ts`, which only
normalizes strings of the shape `"/" + rest`): collapses `.`/`..`/empty
segments and preserves a single trailing separator. -/
def normAbs (p : String) : String :=
  let segs := processSegs (splitChar p '/')
  if segs = [] then "/"
  else
    let core := "/" ++ joinSep "/" segs
    if strEndsWith p "/" then core ++ "/" else core

/-- `normalizeVirtualPath` from `utils.ts`: backslashes become slashes,
leading slashes are stripped, then the `/`-prefixed result is normalized.
The source throws when the normalized path does not start with `/`, but
`path.posix.normalize` of a `/`-prefixed string always starts with `/`, so
that branch is unreachable and the embedding is total. -/
def normalizeVirtualPath (filePath : String) : String :=
  let unixPath := String.mk (filePath.data.map (fun c => if c = '\\' then '/' else c))
  let stripped := String.mk (unixPath.data.dropWhile (· == '/'))
  normAbs ("/" ++ stripped)

/-- `normalizeFileMap` from `utils.ts`: rebuilds the object with normalized
keys (later duplicates overwrite the value but keep the first position, as
JavaScript object assignment does).  The non-string-contents throw cannot
fire in this embedding because `FileMap` values are strings. -/
def normalizeFileMap (files : FileMap) : FileMap :=
  files.foldl (fun acc kv => objSet acc (normalizeVirtualPath kv.1) kv.2) []

/-- Index of the last `.` in a character list, if any. -/
def lastDotIdx (b : List Char) : Option Nat :=
  (b.reverse.findIdx? (· == '.')).map (fun j => b.length - 1 - j)

/-- `path.posix.extname` restricted to a slash-free basename: the suffix from
the last dot, except that a leading-dot-only name (`.file`), a dotless name,
and the exact name `..` have no extension. -/
def extnameBase (b : List Char) : List Char :=
  match lastDotIdx b with
  | none => []
  | some i =>
    if i = 0 then []
    else if b = ['.', '.'] then []
    else b.drop i

/-- `path.posix.extname`: trailing separators are ignored and the extension
is taken from the basename. -/
def extname (p : String) : String :=
  let t := (p.data.reverse.dropWhile (· == '/')).reverse
  let b := (t.reverse.takeWhile (· != '/')).reverse
  String.mk (extnameBase b)

/-- `path.posix.dirname`. -/
def dirname (p : String) : String :=
  let cs := p.data
  if cs = [] then "."
  else
    let hasRoot := strStartsWith p "/"
    let r := cs.reverse.take (cs.length - 1)
    let step2 := (r.dropWhile (· == '/')).dropWhile (· != '/')
    if step2 = [] then (if hasRoot then "/" else ".")
    else
      let e := step2.length
      if hasRoot ∧ e = 1 then "//" else String.mk (cs.take e)

/-- `path.posix.resolve(from, to)` for the shapes arising in `utils.ts`:
`from` is an absolute directory (every importer handed to the resolver is a
normalized absolute virtual path) and `to` is a relative specifier, so the
process working directory is never consulted and no trailing separator is
kept. -/
def resolveAbsRel (base rel : String) : String :=
  "/" ++ joinSep "/" (processSegs (splitChar (base ++ "/" ++ rel) '/'))

/-- `path.posix.join(base, seg)` for non-empty arguments: normalization of
`base ++ "/" ++ seg`. -/
def joinPath (base seg : String) : String := normAbs (base ++ "/" ++ seg)

/-! ## RuntimeShimFactory -/

/-- Modelled from the spec: the name of the process-wide runtime registry
global (`RUNTIME_PACKAGE_GLOBAL`, defined in `types.ts`, which is not among
the provided sources).  No claim depends on its concrete value. -/
def RUNTIME_PACKAGE_GLOBAL : String := "RUNTIME_PACKAGE_GLOBAL"

/-- Modelled from the spec: the global under which a compiled bundle exposes
its exports (`RUNTIME_BUNDLE_GLOBAL`, defined in `types.ts`, which is not
among the provided sources).  No claim depends on its concrete value. -/
def RUNTIME_BUNDLE_GLOBAL : String := "RUNTIME_BUNDLE_GLOBAL"

/-- First character of `IDENTIFIER_PATTERN`: `[A-Za-z_$]`. -/
def isIdentStartChar (c : Char) : Bool :=
  (('A' ≤ c && c ≤ 'Z') || ('a' ≤ c && c ≤ 'z')) || c == '_' || c == '$'

/-- Later characters of `IDENTIFIER_PATTERN`: `[A-Za-z0-9_$]`. -/
def isIdentChar (c : Char) : Bool :=
  isIdentStartChar c || ('0' ≤ c && c ≤ '9')

/-- `IDENTIFIER_PATTERN.test`: `/^[A-Za-z_$][A-Za-z0-9_$]*$/`. -/
def isValidIdentifier (s : String) : Bool :=
  match s.data with
  | [] => false
  | c :: cs => isIdentStartChar c && cs.all isIdentChar

/-- Lower-case hexadecimal digit. -/
def hexDigit (n : Nat) : Char :=
  if n < 10 then Char.ofNat (48 + n) else Char.ofNat (87 + n)

/-- `JSON.stringify` escaping of one character of a string. -/
def jsonEscapeChar (c : Char) : List Char :=
  if c = '"' then ['\\', '"']
  else if c = '\\' then ['\\', '\\']
  else if c = '\n' then ['\\', 'n']
  else if c = '\r' then ['\\', 'r']
  else if c = '\t' then ['\\', 't']
  else if c = '\x08' then ['\\', 'b']
  else if c = '\x0c' then ['\\', 'f']
  else if c.toNat < 0x20 then
    ['\\', 'u', '0', '0', hexDigit (c.toNat / 16), hexDigit (c.toNat % 16)]
  else [c]

/-- `JSON.stringify` of a string value. -/
def jsonQuote (s : String) : String :=
  String.mk ('"' :: s.data.flatMap jsonEscapeChar ++ ['"'])

/-- The named exports a shim forwards: every key of the module namespace
other than `default` that matches `IDENTIFIER_PATTERN`, sorted. -/
def shimNamedExports (moduleKeys : List String) : List String :=
  sortStrings (moduleKeys.filter (fun name => name != "default" && isValidIdentifier name))

/-- `createRuntimeShim` from `utils.ts`.  The real module namespace object is
represented by the list of its export names (`Object.keys`), which is all the
source inspects. -/
def createRuntimeShim (moduleName : String) (moduleKeys : List String) : String :=
  let namedExports := shimNamedExports moduleKeys
  let exportLines := joinSep "\n"
    (namedExports.map (fun name => "export const " ++ name ++ " = runtime." ++ name ++ ";"))
  joinSep "\n"
    [ "const modules = globalThis." ++ RUNTIME_PACKAGE_GLOBAL ++ ";"
    , "const runtime = modules?.[" ++ jsonQuote moduleName ++ "];"
    , "if (!runtime) throw new Error(" ++ jsonQuote ("Missing runtime module: " ++ moduleName) ++ ");"
    , "export default runtime.default;"
    , exportLines
    , "" ]

/-- Modelled from the spec: the observable behavior of evaluating a generated
shim (the evaluation itself happens inside the JavaScript engine, outside the
provided sources).  The shim reads the process-wide registry entry keyed by
the module name, throws the descriptive error when the entry is absent, and
otherwise binds `default` plus each valid named export to the corresponding
field of the registry entry. -/
def runShim (registry : String → Option (String → Option String))
    (moduleName : String) (moduleKeys : List String) :
    Except String (List (String × Option String)) :=
  match registry moduleName with
  | none => .error ("Missing runtime module: " ++ moduleName)
  | some runtime =>
    .ok (("default", runtime "default") ::
      (shimNamedExports moduleKeys).map (fun n => (n, runtime n)))

/-! ## ImportResolver -/

/-- `SUPPORTED_FILE_EXTENSIONS` from `utils.ts`. -/
def SUPPORTED_FILE_EXTENSIONS : List String :=
  [".tsx", ".ts", ".jsx", ".js", ".mjs", ".cjs", ".json", ".css", ".svg",
   ".png", ".jpg", ".jpeg", ".gif", ".webp", ".mp4", ".webm", ".mov",
   ".mp3", ".wav", ".ogg"]

/-- The absolute base path of a relative or absolute import specifier
(`basePath` in `resolveVirtualImport`). -/
def computeBasePath (importPath importer : String) : String :=
  if strStartsWith importPath "/" then normalizeVirtualPath importPath
  else normalizeVirtualPath (resolveAbsRel (dirname importer) importPath)

/-- The sequence of `candidates.add` calls performed by `resolveVirtualImport`
for an extensionless base path: the bare path, then, for each supported
extension in order, the extended path followed by the `index` probe. -/
def candList (basePath : String) : List String :=
  basePath :: SUPPORTED_FILE_EXTENSIONS.flatMap
    (fun e => [basePath ++ e, joinPath basePath ("index" ++ e)])

/-- The candidate `Set` of `resolveVirtualImport` in insertion order. -/
def buildCandidates (basePath : String) : List String :=
  (candList basePath).foldl addCand []

/-- `resolveVirtualImport` from `utils.ts`. -/
def resolveVirtualImport (importPath importer : String) (files : FileMap) :
    Option String :=
  if !strStartsWith importPath "." && !strStartsWith importPath "/" then none
  else
    let basePath := computeBasePath importPath importer
    let ext := extname basePath
    let candidates :=
      if ext.length > 0 then addCand [] basePath else buildCandidates basePath
    candidates.find? (fun candidate => hasKey files candidate)

/-! ## Compiler front-end -/

/-- `addRemotionCompileHints` from `utils.ts`. -/
def addRemotionCompileHints (message : String) : String :=
  let hints : List String :=
    (if strIncludes message "No matching export" && strIncludes message "TransitionSeries"
     then ["Hint: import TransitionSeries from @remotion/transitions, not from remotion."]
     else []) ++
    (if strIncludes message "No matching export" && strIncludes message "fade"
     then ["Hint: import fade from @remotion/transitions/fade."]
     else []) ++
    (if strIncludes (strToLower message) "unterminated string literal"
     then ["Hint: check for missing quote characters in JSX style/object literals."]
     else [])
  if hints.isEmpty then message
  else message ++ "\n\n" ++ joinSep "\n" hints

/-- The external esbuild `build` call, abstracted: given the normalized file
map and entry it either fails with an already-formatted diagnostic message
(the composition of esbuild's throw with `formatCompileFailure`, both outside
the modelled core) or returns the texts of its output files. -/
abbrev Bundler := FileMap → String → Except String (List String)

/-- The message thrown by `compileProjectBundle` for a missing entry file. -/
def entryMissingMessage (normalizedEntry : String) (normalizedFiles : FileMap) : String :=
  let availableFiles := joinSep ", " (sortStrings (keysOf normalizedFiles))
  "Entry file \"" ++ normalizedEntry ++ "\" does not exist. Available files: " ++
    (if availableFiles = "" then "none" else availableFiles) ++ "."

/-- `compileProjectBundle` from `utils.ts`, with the esbuild invocation
abstracted as a `Bundler` parameter: normalizes the file map and entry,
throws when the entry is absent (naming it and listing the available files),
applies the hint pass to bundler failures, and rejects empty output
(`outputFiles[0]?.text` being absent or the empty string). -/
def compileProjectBundle (bundler : Bundler) (files : FileMap) (entryFile : String) :
    Except String String :=
  let normalizedFiles := normalizeFileMap files
  let normalizedEntry := normalizeVirtualPath entryFile
  if !hasKey normalizedFiles normalizedEntry then
    .error (entryMissingMessage normalizedEntry normalizedFiles)
  else
    match bundler normalizedFiles normalizedEntry with
    | .error e => .error (addRemotionCompileHints e)
    | .ok outputFiles =>
      let output := (outputFiles.head?).getD ""
      if output = "" then .error "Compilation produced no JavaScript output."
      else .ok output

/-! ## Response artifact -/

/-- The `meta` block of the response artifact (`VideoProjectData["meta"]`). -/
structure VideoMeta where
  title : String
  compositionId : String
  width : Int
  height : Int
  fps : Int
  durationInFrames : Int
deriving DecidableEq, Repr

/-- `DEFAULT_META` from `utils.ts`. -/
def DEFAULT_META : VideoMeta :=
  { title := "Untitled", compositionId := "Main", width := 1920, height := 1080,
    fps := 30, durationInFrames := 150 }

/-- `ERROR_FALLBACK_BUNDLE` from `utils.ts`: the safe no-op fallback bundle. -/
def ERROR_FALLBACK_BUNDLE : String :=
  "var " ++ RUNTIME_BUNDLE_GLOBAL ++
    " = \x7b default: function RemotionFallback() \x7b return null; \x7d \x7d;"

/-- The partial meta overrides accepted by `buildProjectData`. -/
structure MetaOverrides where
  title : Option String := none
  compositionId : Option String := none
  width : Option Int := none
  height : Option Int := none
  fps : Option Int := none
  durationInFrames : Option Int := none
deriving DecidableEq, Repr

/-- The `config` argument of `buildProjectData`. -/
structure BuildConfig where
  bundle : Option String := none
  defaultProps : Option PropRecord := none
  inputProps : Option PropRecord := none
  compileError : Option String := none
deriving DecidableEq, Repr

/-- The response artifact (`VideoProjectData` from `types.ts`, as consumed by
the rendering widget). -/
structure VideoProjectData where
  meta : VideoMeta
  bundle : String
  defaultProps : PropRecord
  inputProps : PropRecord
  compileError : Option String
deriving DecidableEq, Repr

/-- `buildProjectData` from `utils.ts`. -/
def buildProjectData (overrides : MetaOverrides) (config : BuildConfig) :
    VideoProjectData :=
  { meta :=
      { title := overrides.title.getD DEFAULT_META.title
      , compositionId := overrides.compositionId.getD DEFAULT_META.compositionId
      , width := overrides.width.getD DEFAULT_META.width
      , height := overrides.height.getD DEFAULT_META.height
      , fps := overrides.fps.getD DEFAULT_META.fps
      , durationInFrames := overrides.durationInFrames.getD DEFAULT_META.durationInFrames }
  , bundle := config.bundle.getD ERROR_FALLBACK_BUNDLE
  , defaultProps := config.defaultProps.getD []
  , inputProps := config.inputProps.getD []
  , compileError := config.compileError }

/-- `failProject` from `utils.ts`, restricted to the artifact it embeds in
the widget response (the `widget`/`text` wrapper is transport). -/
def failProject (message : String) (fallbackMeta : Option MetaOverrides)
    (fallbackProps : Option (Option PropRecord × Option PropRecord)) :
    VideoProjectData :=
  buildProjectData (fallbackMeta.getD {})
    { bundle := none
    , defaultProps := fallbackProps.bind (·.1)
    , inputProps := fallbackProps.bind (·.2)
    , compileError := some message }

/-! ## SessionStore -/

/-- The per-session remembered project document. -/
structure SessionProjectState where
  title : String
  compositionId : String
  width : Int
  height : Int
  fps : Int
  durationInFrames : Int
  entryFile : String
  files : FileMap
  defaultProps : PropRecord
  inputProps : PropRecord
deriving DecidableEq, Repr

/-- The `sessionProjects` map: a JavaScript `Map` in insertion order. -/
abbrev SessionStore := List (String × SessionProjectState)

/-- `MAX_SESSION_PROJECTS` from `utils.ts`. -/
def MAX_SESSION_PROJECTS : Nat := 250

/-- `Map.has` on the session store. -/
def storeHas (store : SessionStore) (sessionId : String) : Bool :=
  store.any (fun kv => kv.1 == sessionId)

/-- `Map.delete` on the session store. -/
def storeDelete (store : SessionStore) (sessionId : String) : SessionStore :=
  store.filter (fun kv => !(kv.1 == sessionId))

/-- `rememberSessionProject` from `utils.ts`: ignores the empty session id,
reinserts at the back to refresh recency, then evicts from the front while
the size exceeds `MAX_SESSION_PROJECTS`.  The eviction loop removes the first
entry per iteration, so it equals dropping `size - MAX_SESSION_PROJECTS`
entries; its `typeof oldestKey !== "string"` break is unreachable because the
loop only runs on a non-empty map whose keys are strings. -/
def rememberSessionProject (store : SessionStore) (sessionId : String)
    (project : SessionProjectState) : SessionStore :=
  if sessionId = "" then store
  else
    let s1 := if storeHas store sessionId then storeDelete store sessionId else store
    let s2 := s1 ++ [(sessionId, project)]
    s2.drop (s2.length - MAX_SESSION_PROJECTS)

/-- `clearSessionProject` from `utils.ts`. -/
def clearSessionProject (store : SessionStore) (sessionId : String) : SessionStore :=
  storeDelete store sessionId

/-- `getSessionProject` from `utils.ts`. -/
def getSessionProject (store : SessionStore) (sessionId : String) :
    Option SessionProjectState :=
  (store.find? (fun kv => kv.1 == sessionId)).map (·.2)

/-- A mutation of the session store. -/
inductive SessionOp where
  | remember (sessionId : String) (project : SessionProjectState)
  | clear (sessionId : String)

/-- Apply one session-store mutation. -/
def applySessionOp (store : SessionStore) : SessionOp → SessionStore
  | .remember sessionId project => rememberSessionProject store sessionId project
  | .clear sessionId => clearSessionProject store sessionId

/-- Run a sequence of mutations against the initially empty store. -/
def runSessionOps (ops : List SessionOp) : SessionStore :=
  ops.foldl applySessionOp []

/-! ## ProjectResolver -/

/-- `updateMode` values. -/
inductive UpdateMode where
  | merge
  | replace
deriving DecidableEq, Repr

/-- `CreateVideoRequest` from `utils.ts`; absent optional fields are `none`. -/
structure CreateVideoRequest where
  title : Option String := none
  compositionId : Option String := none
  width : Option Int := none
  height : Option Int := none
  fps : Option Int := none
  durationInFrames : Option Int := none
  entryFile : Option String := none
  files : Option FileMap := none
  defaultProps : Option PropRecord := none
  inputProps : Option PropRecord := none
  usePreviousProject : Option Bool := none
  updateMode : Option UpdateMode := none
  deleteFiles : Option (List String) := none
  resetProject : Option Bool := none
deriving Repr

/-- `cloneRecord` from `utils.ts` (`{...value}`): a fresh shallow copy with
identical contents; at the pure level it is the identity (object freshness is
modelled separately at the heap level). -/
def cloneRecord (value : PropRecord) : PropRecord := value

/-- `cloneFileMap` from `utils.ts` (`{...value}`), as `cloneRecord`. -/
def cloneFileMap (value : FileMap) : FileMap := value

/-- The own property names of `Object.prototype`: the file maps are plain
objects (literals and spreads), so the JavaScript `in` operator answers true
for these names even when they are not own keys of the map. -/
def OBJECT_PROTOTYPE_NAMES : List String :=
  ["constructor", "hasOwnProperty", "isPrototypeOf", "propertyIsEnumerable",
   "toLocaleString", "toString", "valueOf", "__defineGetter__",
   "__defineSetter__", "__lookupGetter__", "__lookupSetter__", "__proto__"]

/-- The JavaScript `in` operator on a plain object: own keys plus the
inherited `Object.prototype` property names. -/
def jsIn (m : FileMap) (k : String) : Bool :=
  hasKey m k || decide (k ∈ OBJECT_PROTOTYPE_NAMES)

/-- One candidate test of the `deleteFiles` loop: a candidate that passes the
`in` test is deleted (`delete` removes the own key, if any — an inherited
prototype name leaves the map unchanged) and counted. -/
def delStep (acc : FileMap × Nat) (filePath : String) : FileMap × Nat :=
  if jsIn acc.1 filePath then (eraseKey acc.1 filePath, acc.2 + 1) else acc

/-- The body of the `deleteFiles` loop for one listed path: candidates are
the raw path and its normalized form (a `Set`, so deduplicated), and each
candidate present in the map is deleted and counted.  The source guards
`normalizeVirtualPath` with a try/catch that keeps only the raw candidate,
but the throw is unreachable (see `normalizeVirtualPath`). -/
def deleteOnePath (acc : FileMap × Nat) (rawPath : String) : FileMap × Nat :=
  (addCand [rawPath] (normalizeVirtualPath rawPath)).foldl delStep acc

/-- `deleteFilesFromMap` from `utils.ts`, returning the updated map and the
number of removals (the source mutates the map in place). -/
def deleteFilesFromMap (files : FileMap) (deleteFiles : List String) : FileMap × Nat :=
  if deleteFiles.isEmpty then (files, 0)
  else deleteFiles.foldl deleteOnePath (files, 0)

/-- The `project` record produced by `resolveProjectInput` (`files` is absent
when neither the request nor an eligible previous project supplies files). -/
structure ResolvedProject where
  title : String
  compositionId : String
  width : Int
  height : Int
  fps : Int
  durationInFrames : Int
  entryFile : String
  files : Option FileMap
  defaultProps : PropRecord
  inputProps : PropRecord
deriving DecidableEq, Repr

/-- The full return value of `resolveProjectInput`. -/
structure ResolveResult where
  project : ResolvedProject
  usedPreviousProject : Bool
  updateMode : UpdateMode
  deletedFiles : Nat
  canReusePreviousProject : Bool
deriving DecidableEq, Repr

/-- The merge/replace step of `resolveProjectInput`: request files overlay a
copy of the base files in merge mode, replace them in replace mode, and the
base files are copied when the request has none. -/
def mergeStepFiles (inputFiles : Option FileMap) (base : Option SessionProjectState)
    (updateMode : UpdateMode) : Option FileMap :=
  match inputFiles, base with
  | some f, some b =>
    if updateMode = .merge then some (objSpread (cloneFileMap b.files) (cloneFileMap f))
    else some (cloneFileMap f)
  | some f, none => some (cloneFileMap f)
  | none, some b => some (cloneFileMap b.files)
  | none, none => none

/-- `resolveProjectInput` from `utils.ts`. -/
def resolveProjectInput (input : CreateVideoRequest)
    (previousProject : Option SessionProjectState) : ResolveResult :=
  let usePreviousProject := input.usePreviousProject.getD true
  let base := if usePreviousProject then previousProject else none
  let updateMode := input.updateMode.getD .merge
  let files0 := mergeStepFiles input.files base updateMode
  let afterDelete : Option FileMap × Nat :=
    match files0 with
    | some m =>
      let r := deleteFilesFromMap m (input.deleteFiles.getD [])
      (some r.1, r.2)
    | none => (none, 0)
  { project :=
      { title := (input.title.orElse (fun _ => base.map (·.title))).getD DEFAULT_META.title
      , compositionId :=
          (input.compositionId.orElse (fun _ => base.map (·.compositionId))).getD
            DEFAULT_META.compositionId
      , width := (input.width.orElse (fun _ => base.map (·.width))).getD DEFAULT_META.width
      , height := (input.height.orElse (fun _ => base.map (·.height))).getD DEFAULT_META.height
      , fps := (input.fps.orElse (fun _ => base.map (·.fps))).getD DEFAULT_META.fps
      , durationInFrames :=
          (input.durationInFrames.orElse (fun _ => base.map (·.durationInFrames))).getD
            DEFAULT_META.durationInFrames
      , entryFile :=
          (input.entryFile.orElse (fun _ => base.map (·.entryFile))).getD "/src/Video.tsx"
      , files := afterDelete.1
      , defaultProps :=
          match input.defaultProps with
          | some d => cloneRecord d
          | none =>
            match base with
            | some b => cloneRecord b.defaultProps
            | none => []
      , inputProps :=
          match input.inputProps with
          | some d => cloneRecord d
          | none =>
            match base with
            | some b => cloneRecord b.inputProps
            | none => [] }
  , usedPreviousProject := base.isSome
  , updateMode := updateMode
  , deletedFiles := afterDelete.2
  , canReusePreviousProject := usePreviousProject }

/-! ## Video-request pipeline -/

/-- The parsed input handed to `compileAndRespondWithProject`; its fields
coincide with the remembered session document. -/
abbrev ProjectVideoInput := SessionProjectState

/-- `validatePositiveNumber` from `utils.ts`.  On mathematical integers
`Number.isFinite` always holds, so the check reduces to positivity. -/
def validatePositiveNumber (name : String) (value : Int) : Option String :=
  if value ≤ 0 then some (name ++ " must be a positive number.") else none

/-- The validation loop of `compileAndRespondWithProject`: the first failing
field among width, height, fps, durationInFrames, in source order. -/
def firstValidationError (input : ProjectVideoInput) : Option String :=
  [("width", input.width), ("height", input.height), ("fps", input.fps),
   ("durationInFrames", input.durationInFrames)].findSome?
    (fun nv => validatePositiveNumber nv.1 nv.2)

/-- Observable milestones of one `compileAndRespondWithProject` run, in
execution order. -/
inductive PipelineEvent where
  | sessionStoreUpdate
  | compilerRun
  | respond
deriving DecidableEq, Repr

/-- Result of one pipeline run: the updated session store, the response
artifact, and the trace of milestones in execution order. -/
structure PipelineResult where
  store : SessionStore
  artifact : VideoProjectData
  trace : List PipelineEvent

/-- `compileAndRespondWithProject` from `utils.ts`, with the esbuild call
abstracted as a `Bundler` and the session store passed explicitly.  The
`statusPrefixLines`/`iterateToolName` arguments only feed the human-readable
status text of the transport wrapper and are omitted.  The trace records the
milestones in the order the source reaches them: validation failures respond
immediately; otherwise the session store is updated, then the compiler runs,
then the response is produced (on success and on compile failure alike). -/
def compileAndRespondWithProject (bundler : Bundler) (store : SessionStore)
    (parsedInput : ProjectVideoInput) (sessionId : String) : PipelineResult :=
  let meta : MetaOverrides :=
    { title := some parsedInput.title
    , compositionId := some parsedInput.compositionId
    , width := some parsedInput.width
    , height := some parsedInput.height
    , fps := some parsedInput.fps
    , durationInFrames := some parsedInput.durationInFrames }
  match firstValidationError parsedInput with
  | some err =>
    { store := store
    , artifact :=
        failProject err (some meta)
          (some (some parsedInput.defaultProps, some parsedInput.inputProps))
    , trace := [.respond] }
  | none =>
    let currentState : SessionProjectState :=
      { parsedInput with
        files := cloneFileMap parsedInput.files
        defaultProps := cloneRecord parsedInput.defaultProps
        inputProps := cloneRecord parsedInput.inputProps }
    let store1 := rememberSessionProject store sessionId currentState
    match compileProjectBundle bundler parsedInput.files parsedInput.entryFile with
    | .error e =>
      { store := store1
      , artifact :=
          failProject ("Project compilation error: " ++ e) (some meta)
            (some (some parsedInput.defaultProps, some parsedInput.inputProps))
      , trace := [.sessionStoreUpdate, .compilerRun, .respond] }
    | .ok bundle =>
      { store := store1
      , artifact :=
          buildProjectData meta
            { bundle := some bundle
            , defaultProps := some parsedInput.defaultProps
            , inputProps := some parsedInput.inputProps
            , compileError := none }
      , trace := [.sessionStoreUpdate, .compilerRun, .respond] }

/-! ## Heap-level model of `resolveProjectInput`

The pure embedding above cannot express object identity, so the frame
properties of `resolveProjectInput` (its arguments are never mutated; the
returned maps are fresh copies) are stated against this second, heap-passing
translation of the same source lines.  A heap maps references (allocation
order numbers) to record contents; `{...value}` allocates, and the in-place
`delete` of `deleteFilesFromMap` writes through the reference it was given.
Only the reference-typed fields (`files`, `defaultProps`, `inputProps`)
appear: JavaScript primitives are immutable and cannot witness mutation. -/

/-- A heap of JavaScript objects: cells in allocation order plus the next
fresh reference. -/
structure Heap where
  cells : List (Nat × FileMap)
  next : Nat

/-- Dereference. -/
def readH (h : Heap) (r : Nat) : Option FileMap :=
  (h.cells.find? (fun c => c.1 == r)).map (·.2)

/-- Allocate a fresh object. -/
def allocH (h : Heap) (v : FileMap) : Heap × Nat :=
  ({ cells := h.cells ++ [(h.next, v)], next := h.next + 1 }, h.next)

/-- Overwrite the object behind a reference. -/
def writeH (h : Heap) (r : Nat) (v : FileMap) : Heap :=
  { h with cells := h.cells.map (fun c => if c.1 = r then (r, v) else c) }

/-- Heap well-formedness: every allocated reference is below `next`. -/
def WfHeap (h : Heap) : Prop := ∀ c ∈ h.cells, c.1 < h.next

/-- `cloneFileMap` / `cloneRecord` (`{...value}`) at the heap level: a fresh
object with the same contents. -/
def cloneMapH (h : Heap) (r : Nat) : Heap × Nat :=
  allocH h ((readH h r).getD [])

/-- The reference-typed fields of the request. -/
structure CreateVideoRequestH where
  files : Option Nat := none
  defaultProps : Option Nat := none
  inputProps : Option Nat := none
  usePreviousProject : Option Bool := none
  updateMode : Option UpdateMode := none
  deleteFiles : Option (List String) := none

/-- The reference-typed fields of the stored previous project. -/
structure SessionProjectStateH where
  files : Nat
  defaultProps : Nat
  inputProps : Nat

/-- One candidate test of the heap-level `deleteFiles` loop: reads the map
behind the reference and, when the candidate passes the `in` test, writes
back the map without that own key (unchanged for an inherited prototype
name) and counts. -/
def delStepH (filesRef : Nat) (acc : Heap × Nat) (filePath : String) : Heap × Nat :=
  let m := (readH acc.1 filesRef).getD []
  if jsIn m filePath then
    (writeH acc.1 filesRef (eraseKey m filePath), acc.2 + 1)
  else acc

/-- The heap-level candidate loop for one listed path. -/
def deleteOnePathH (filesRef : Nat) (acc : Heap × Nat) (rawPath : String) :
    Heap × Nat :=
  (addCand [rawPath] (normalizeVirtualPath rawPath)).foldl (delStepH filesRef) acc

/-- `deleteFilesFromMap` at the heap level: mutates the map behind `filesRef`
in place, one removal at a time, and counts the removals. -/
def deleteFilesFromMapH (h : Heap) (filesRef : Nat) (deleteFiles : List String) :
    Heap × Nat :=
  if deleteFiles.isEmpty then (h, 0)
  else deleteFiles.foldl (deleteOnePathH filesRef) (h, 0)

/-- The reference-typed fields of the resolved project. -/
structure ResolvedProjectH where
  files : Option Nat
  defaultProps : Nat
  inputProps : Nat

/-- The merge/replace step of `resolveProjectInput` at the heap level,
with each `{...}` allocating a fresh object. -/
def mergeStepFilesH (h : Heap) (inputFiles : Option Nat)
    (base : Option SessionProjectStateH) (updateMode : UpdateMode) :
    Heap × Option Nat :=
  match inputFiles, base with
  | some fR, some b =>
    if updateMode = .merge then
      let h1a := cloneMapH h b.files
      let h2a := cloneMapH h1a.1 fR
      let h3a := allocH h2a.1
        (objSpread ((readH h2a.1 h1a.2).getD []) ((readH h2a.1 h2a.2).getD []))
      (h3a.1, some h3a.2)
    else
      let h1a := cloneMapH h fR
      (h1a.1, some h1a.2)
  | some fR, none =>
    let h1a := cloneMapH h fR
    (h1a.1, some h1a.2)
  | none, some b =>
    let h1a := cloneMapH h b.files
    (h1a.1, some h1a.2)
  | none, none => (h, none)

/-- The props step of `resolveProjectInput` at the heap level: clone the
request record, else clone the base record, else allocate `{}`. -/
def propsStepH (h : Heap) (inputRef : Option Nat) (baseRef : Option Nat) :
    Heap × Nat :=
  match inputRef with
  | some r => cloneMapH h r
  | none =>
    match baseRef with
    | some r => cloneMapH h r
    | none => allocH h []

/-- `resolveProjectInput` at the heap level (reference-typed fields only):
merge/replace, then the in-place `deleteFiles` removals, then the props
clones.  Returns the final heap, the project references and the removal
count. -/
def resolveProjectInputH (h : Heap) (input : CreateVideoRequestH)
    (previousProject : Option SessionProjectStateH) :
    Heap × ResolvedProjectH × Nat :=
  let usePreviousProject := input.usePreviousProject.getD true
  let base := if usePreviousProject then previousProject else none
  let updateMode := input.updateMode.getD .merge
  let filesStep := mergeStepFilesH h input.files base updateMode
  let afterDelete : Heap × Nat :=
    match filesStep.2 with
    | some mR => deleteFilesFromMapH filesStep.1 mR (input.deleteFiles.getD [])
    | none => (filesStep.1, 0)
  let dStep := propsStepH afterDelete.1 input.defaultProps (base.map (·.defaultProps))
  let iStep := propsStepH dStep.1 input.inputProps (base.map (·.inputProps))
  (iStep.1,
   { files := filesStep.2, defaultProps := dStep.2, inputProps := iStep.2 },
   afterDelete.2)

/-! ## Definitions following the words of the spec

Each is clearly named `spec...` and follows the specification text rather
than the source; the theorems compare them with the translations above. -/

/-- The probe order the spec asserts for an extensionless import: the bare
path, then the path with each supported extension, then the `index` probe
with each supported extension. -/
def specClaimedCandidates (basePath : String) : List String :=
  basePath :: (SUPPORTED_FILE_EXTENSIONS.map (fun e => basePath ++ e) ++
    SUPPORTED_FILE_EXTENSIONS.map (fun e => joinPath basePath ("index" ++ e)))

/-- Import resolution as the spec words it: same base-path computation, but
probing in the spec's bare, then all-extension, then all-`index` order. -/
def specClaimedResolve (importPath importer : String) (files : FileMap) :
    Option String :=
  if !strStartsWith importPath "." && !strStartsWith importPath "/" then none
  else
    let basePath := computeBasePath importPath importer
    let ext := extname basePath
    let candidates :=
      if ext.length > 0 then [basePath] else specClaimedCandidates basePath
    candidates.find? (fun candidate => hasKey files candidate)

/-- First-non-null field precedence as the spec words it: the request value,
else the previous value, else the fixed default. -/
def specFieldPrecedence {α : Type} (reqVal prevVal : Option α) (dflt : α) : α :=
  match reqVal with
  | some v => v
  | none =>
    match prevVal with
    | some v => v
    | none => dflt

/-- The temporal ordering the spec asserts for the pipeline: every
session-store update happens only after a compiler run. -/
def specStoreUpdateOnlyAfterCompile (t : List PipelineEvent) : Prop :=
  ∀ i j, t.get? i = some PipelineEvent.sessionStoreUpdate →
    t.get? j = some PipelineEvent.compilerRun → j < i

/-! ## Lemmas about the object-map operations -/

theorem getVal_append (u v : FileMap) (k : String) :
    getVal (u ++ v) k = (getVal u k).or (getVal v k) := by
  induction u with
  | nil => simp [getVal]
  | cons kv rest ih =>
    obtain ⟨k₀, v₀⟩ := kv
    by_cases h : k₀ = k <;> simp [getVal, h, ih]

theorem hasKey_eq_isSome (m : FileMap) (k : String) :
    hasKey m k = (getVal m k).isSome := by
  induction m with
  | nil => simp [hasKey, getVal]
  | cons kv rest ih =>
    obtain ⟨k₀, v₀⟩ := kv
    by_cases h : k₀ = k
    · simp [hasKey, getVal, h]
    · have hb : (k₀ == k) = false := by simp [h]
      simp only [hasKey, List.any_cons, hb, Bool.false_or, getVal, if_neg h]
      exact ih

theorem getVal_mapOverride (a b : FileMap) (k : String) :
    getVal (a.map fun kv =>
      match getVal b kv.1 with
      | some v => (kv.1, v)
      | none => kv) k =
      match getVal a k with
      | some va => some ((getVal b k).getD va)
      | none => none := by
  induction a with
  | nil => simp [getVal]
  | cons kv rest ih =>
    obtain ⟨k₀, v₀⟩ := kv
    by_cases h : k₀ = k
    · subst h
      cases hb : getVal b k₀ <;> simp [getVal, hb]
    · cases hb : getVal b k₀ <;> simp [getVal, hb, h, ih]

theorem getVal_filterKeyNotIn (a b : FileMap) (k : String) :
    getVal (b.filter fun kv => !(hasKey a kv.1)) k =
      if hasKey a k then none else getVal b k := by
  induction b with
  | nil => simp [getVal]
  | cons kv rest ih =>
    obtain ⟨k₀, v₀⟩ := kv
    by_cases hk : k₀ = k
    · subst hk
      cases ha : hasKey a k₀ <;> simp [List.filter_cons, ha, getVal, ih]
    · cases ha : hasKey a k₀ <;> simp [List.filter_cons, ha, getVal, hk, ih]

theorem getVal_objSpread (a b : FileMap) (k : String) :
    getVal (objSpread a b) k = (getVal b k).or (getVal a k) := by
  unfold objSpread
  rw [getVal_append, getVal_mapOverride, getVal_filterKeyNotIn, hasKey_eq_isSome]
  cases ha : getVal a k <;> cases hb : getVal b k <;> simp [ha, hb]

theorem eraseKey_cons (k₀ v₀ : String) (rest : FileMap) (x : String) :
    eraseKey ((k₀, v₀) :: rest) x =
      if k₀ = x then eraseKey rest x else (k₀, v₀) :: eraseKey rest x := by
  by_cases h0 : k₀ = x <;> simp [eraseKey, List.filter_cons, h0]

theorem eraseKey_of_not_hasKey (m : FileMap) (x : String) (h : hasKey m x = false) :
    eraseKey m x = m := by
  induction m with
  | nil => rfl
  | cons kv rest ih =>
    obtain ⟨k₀, v₀⟩ := kv
    simp only [hasKey, List.any_cons, Bool.or_eq_false_iff, beq_eq_false_iff_ne,
      ne_eq] at h
    rw [eraseKey_cons, if_neg h.1, ih h.2]

theorem getVal_eraseKey (m : FileMap) (x k : String) :
    getVal (eraseKey m x) k = if k = x then none else getVal m k := by
  induction m with
  | nil => simp [eraseKey, getVal]
  | cons kv rest ih =>
    obtain ⟨k₀, v₀⟩ := kv
    rw [eraseKey_cons]
    by_cases h0 : k₀ = x
    · subst h0
      rw [if_pos rfl, ih]
      by_cases hk : k = k₀
      · simp [hk]
      · have hk0 : ¬k₀ = k := fun hh => hk hh.symm
        simp [hk, getVal, hk0]
    · rw [if_neg h0]
      by_cases hk : k₀ = k
      · subst hk
        simp [getVal, h0]
      · simp [getVal, hk, ih]

theorem delStep_fst (m : FileMap) (c : Nat) (fp : String) :
    (delStep (m, c) fp).1 = eraseKey m fp := by
  unfold delStep
  cases h : jsIn m fp
  · have hk : hasKey m fp = false := by
      have h2 := h
      unfold jsIn at h2
      exact (Bool.or_eq_false_iff.mp h2).1
    simp [eraseKey_of_not_hasKey m fp hk]
  · simp

/-! ## Deduplicating insertion preserves the first match -/

theorem find?_removeNonMatch (p : String → Bool) (x : String) (u v : List String)
    (hx : p x = false) : (u ++ x :: v).find? p = (u ++ v).find? p := by
  induction u with
  | nil => simp [List.find?_cons, hx]
  | cons a as ih =>
    cases ha : p a <;> simp [List.find?_cons, ha, ih]

theorem find?_foldl_addCand (p : String → Bool) (l acc : List String) :
    (l.foldl addCand acc).find? p = (acc ++ l).find? p := by
  induction l generalizing acc with
  | nil => simp
  | cons x xs ih =>
    rw [List.foldl_cons, ih]
    by_cases hx : x ∈ acc
    · rw [show addCand acc x = acc from by simp [addCand, hx]]
      rw [List.find?_append, List.find?_append]
      cases hpx : p x
      · rw [show (x :: xs).find? p = xs.find? p from by simp [List.find?_cons, hpx]]
      · have hsome : (acc.find? p).isSome := List.find?_isSome.mpr ⟨x, hx, hpx⟩
        obtain ⟨y, hy⟩ := Option.isSome_iff_exists.mp hsome
        simp [hy]
    · rw [show addCand acc x = acc ++ [x] from by simp [addCand, hx]]
      simp [List.append_assoc]

/-! ## Substring lemmas -/

theorem chPre_iff (s t : List Char) : chPre s t = true ↔ ∃ v, t = s ++ v := by
  induction s generalizing t with
  | nil => simp [chPre]
  | cons c cs ih =>
    cases t with
    | nil =>
      simp [chPre]
    | cons d ds =>
      simp only [chPre, Bool.and_eq_true, beq_iff_eq, ih, List.cons_append,
        List.cons.injEq]
      constructor
      · rintro ⟨rfl, v, rfl⟩
        exact ⟨v, rfl, rfl⟩
      · rintro ⟨v, rfl, rfl⟩
        exact ⟨rfl, v, rfl⟩

theorem chSub_iff (s t : List Char) : chSub s t = true ↔ ∃ u v, t = u ++ s ++ v := by
  induction t with
  | nil =>
    simp only [chSub, List.isEmpty_iff]
    constructor
    · rintro rfl
      exact ⟨[], [], rfl⟩
    · rintro ⟨u, v, huv⟩
      rcases List.append_eq_nil.mp (List.append_eq_nil.mp huv.symm).1 with ⟨-, h2⟩
      exact h2
  | cons c cs ih =>
    simp only [chSub, Bool.or_eq_true, chPre_iff, ih]
    constructor
    · rintro (⟨v, hv⟩ | ⟨u, v, huv⟩)
      · exact ⟨[], v, by simpa using hv⟩
      · exact ⟨c :: u, v, by simp [huv]⟩
    · rintro ⟨u, v, huv⟩
      cases u with
      | nil => exact Or.inl ⟨v, by simpa using huv⟩
      | cons d ds =>
        simp only [List.cons_append, List.cons.injEq] at huv
        exact Or.inr ⟨ds, v, huv.2⟩

theorem strIncludes_decomp (pre mid suf : String) :
    strIncludes (pre ++ mid ++ suf) mid = true := by
  unfold strIncludes
  rw [chSub_iff]
  exact ⟨pre.data, suf.data, by simp [String.data_append]⟩

theorem strIncludes_self (s : String) : strIncludes s s = true := by
  have := strIncludes_decomp "" s ""
  simpa using this

theorem strIncludes_append_left (w t s : String) (h : strIncludes t s = true) :
    strIncludes (w ++ t) s = true := by
  unfold strIncludes at h ⊢
  rw [chSub_iff] at h ⊢
  obtain ⟨u, v, huv⟩ := h
  exact ⟨w.data ++ u, v, by simp [String.data_append, huv]⟩

theorem strIncludes_append_right (t z s : String) (h : strIncludes t s = true) :
    strIncludes (t ++ z) s = true := by
  unfold strIncludes at h ⊢
  rw [chSub_iff] at h ⊢
  obtain ⟨u, v, huv⟩ := h
  exact ⟨u, v ++ z.data, by simp [String.data_append, huv]⟩

theorem strIncludes_trans (u t s : String) (hts : strIncludes t s = true)
    (hut : strIncludes u t = true) : strIncludes u s = true := by
  unfold strIncludes at hts hut ⊢
  rw [chSub_iff] at hts hut ⊢
  obtain ⟨a, b, hab⟩ := hts
  obtain ⟨c, d, hcd⟩ := hut
  exact ⟨c ++ a, b ++ d, by simp [hcd, hab]⟩

theorem strIncludes_empty (t : String) : strIncludes t "" = true := by
  unfold strIncludes
  rw [chSub_iff]
  exact ⟨[], t.data, by simp⟩

/-! ## Join and sort lemmas -/

theorem strIncludes_joinSep_of_mem (sep : String) (l : List String) (x : String)
    (hx : x ∈ l) : strIncludes (joinSep sep l) x = true := by
  induction l with
  | nil => cases hx
  | cons y ys ih =>
    cases ys with
    | nil =>
      rcases List.mem_singleton.mp hx with rfl
      exact strIncludes_self x
    | cons z zs =>
      rcases List.mem_cons.mp hx with rfl | hmem
      · show strIncludes (x ++ sep ++ joinSep sep (z :: zs)) x = true
        exact strIncludes_append_right _ _ _
          (strIncludes_append_right _ _ _ (strIncludes_self x))
      · show strIncludes (y ++ sep ++ joinSep sep (z :: zs)) x = true
        exact strIncludes_append_left (y ++ sep) _ _ (ih hmem)

theorem mem_insertSorted (x y : String) (l : List String) :
    x ∈ insertSorted y l ↔ x = y ∨ x ∈ l := by
  induction l with
  | nil => simp [insertSorted]
  | cons z zs ih =>
    unfold insertSorted
    by_cases h : lexLe y.data z.data = true
    · simp [h, List.mem_cons]
    · simp only [if_neg h, List.mem_cons, ih]
      tauto

theorem mem_sortStrings (x : String) (l : List String) :
    x ∈ sortStrings l ↔ x ∈ l := by
  induction l with
  | nil => simp [sortStrings]
  | cons y ys ih =>
    unfold sortStrings
    rw [mem_insertSorted, ih, List.mem_cons]

/-! ## C2: import resolution probe order -/

/-- File map of the probe-precedence example in the spec. -/
def sceneFilesBoth : FileMap :=
  [("/src/Scene.tsx", "export default 1"), ("/src/Scene/index.tsx", "export default 2")]

/-- File map separating the two probe orders: the extension probe for `.ts`
comes after the index probe for `.tsx` in the source's interleaved order, but
before every index probe in the spec's order. -/
def sceneFilesMixed : FileMap :=
  [("/src/Scene/index.tsx", "export default 1"), ("/src/Scene.ts", "export default 2")]

set_option maxRecDepth 8000 in
/-- C2 counterexample: importing `"./Scene"` from `/src/Video.tsx` against a
file map holding `/src/Scene/index.tsx` and `/src/Scene.ts` resolves to
`/src/Scene/index.tsx`, whereas the probe order claimed by the spec (bare
path, then every extension probe, then every index probe) would resolve to
`/src/Scene.ts`: the source interleaves the extension and index probes per
extension instead. -/
theorem resolveVirtualImport_specOrder_counterexample :
    resolveVirtualImport "./Scene" "/src/Video.tsx" sceneFilesMixed =
      some "/src/Scene/index.tsx" ∧
    specClaimedResolve "./Scene" "/src/Video.tsx" sceneFilesMixed =
      some "/src/Scene.ts" ∧
    resolveVirtualImport "./Scene" "/src/Video.tsx" sceneFilesMixed ≠
      specClaimedResolve "./Scene" "/src/Video.tsx" sceneFilesMixed := by
  refine ⟨by decide, by decide, by decide⟩

/-- C2 (amended): for a relative or absolute extensionless specifier, the
resolver scans, in a fixed deterministic order, the bare base path and then,
for each supported extension in source order, the extension probe followed
immediately by the `index` probe for that same extension; the first candidate
that is a key of the file map wins (the candidate `Set` deduplication never
changes the first match). -/
theorem resolveVirtualImport_probe_order (importPath importer : String) (files : FileMap)
    (hrel : strStartsWith importPath "." = true ∨ strStartsWith importPath "/" = true)
    (hext : extname (computeBasePath importPath importer) = "") :
    resolveVirtualImport importPath importer files =
      (candList (computeBasePath importPath importer)).find?
        (fun candidate => hasKey files candidate) := by
  have hcond : (!strStartsWith importPath "." && !strStartsWith importPath "/") = false := by
    rcases hrel with h | h <;> simp [h]
  unfold resolveVirtualImport
  rw [hcond]
  simp only [Bool.false_eq_true, if_false]
  rw [hext]
  have hlen : ¬(("" : String).length > 0) := by decide
  rw [if_neg hlen]
  unfold buildCandidates
  rw [find?_foldl_addCand]
  simp

set_option maxRecDepth 8000 in
/-- C2 witness: the spec's concrete example, with both `/src/Scene.tsx` and
`/src/Scene/index.tsx` present, resolves per the probe order to
`/src/Scene.tsx`. -/
theorem resolveVirtualImport_probe_order_witness :
    (strStartsWith "./Scene" "." = true ∨ strStartsWith "./Scene" "/" = true) ∧
    extname (computeBasePath "./Scene" "/src/Video.tsx") = "" ∧
    resolveVirtualImport "./Scene" "/src/Video.tsx" sceneFilesBoth =
      (candList (computeBasePath "./Scene" "/src/Video.tsx")).find?
        (fun candidate => hasKey sceneFilesBoth candidate) ∧
    resolveVirtualImport "./Scene" "/src/Video.tsx" sceneFilesBoth =
      some "/src/Scene.tsx" :=
  ⟨Or.inl (by decide), by decide,
   resolveVirtualImport_probe_order _ _ _ (Or.inl (by decide)) (by decide),
   by decide⟩

/-! ## C4: pipeline ordering of session-store update and compilation -/

/-- A bundler that always succeeds with a non-empty output. -/
def okBundler : Bundler := fun _ _ => .ok ["var bundle = 1;"]

/-- A concrete valid parsed input. -/
def sampleInput : ProjectVideoInput :=
  { title := "Demo", compositionId := "Main", width := 1920, height := 1080,
    fps := 30, durationInFrames := 150, entryFile := "/src/Video.tsx",
    files := [("/src/Video.tsx", "export default 1")],
    defaultProps := [], inputProps := [] }

set_option maxRecDepth 8000 in
/-- C4 counterexample: on a concrete valid request the pipeline trace places
the session-store update strictly before the compiler run, so the spec's
claim that the store is updated only after the compiler has produced its
result fails: the source calls `rememberSessionProject` before awaiting
`compileProjectBundle`. -/
theorem pipeline_storeUpdate_after_compile_counterexample :
    ¬ specStoreUpdateOnlyAfterCompile
        (compileAndRespondWithProject okBundler [] sampleInput "session-1").trace := by
  intro hclaim
  have htrace :
      (compileAndRespondWithProject okBundler [] sampleInput "session-1").trace =
        [PipelineEvent.sessionStoreUpdate, PipelineEvent.compilerRun,
         PipelineEvent.respond] := by decide
  have h := hclaim 0 1 (by rw [htrace]; rfl) (by rw [htrace]; rfl)
  omega

/-- C4 (amended): in every pipeline run that passes numeric validation, the
processing order is: session-store update, then compiler run, then response
(so the store is updated before, not after, compilation — also when the
compiler fails); a validation failure responds without touching either. -/
theorem pipeline_event_order (bundler : Bundler) (store : SessionStore)
    (input : ProjectVideoInput) (sessionId : String) :
    (firstValidationError input = none →
      (compileAndRespondWithProject bundler store input sessionId).trace =
        [PipelineEvent.sessionStoreUpdate, PipelineEvent.compilerRun,
         PipelineEvent.respond]) ∧
    (∀ e, firstValidationError input = some e →
      (compileAndRespondWithProject bundler store input sessionId).trace =
        [PipelineEvent.respond]) := by
  constructor
  · intro h
    unfold compileAndRespondWithProject
    rw [h]
    cases compileProjectBundle bundler input.files input.entryFile <;> simp
  · intro e h
    unfold compileAndRespondWithProject
    rw [h]

set_option maxRecDepth 8000 in
/-- C4 witness: the amended ordering at a concrete valid input. -/
theorem pipeline_event_order_witness :
    firstValidationError sampleInput = none ∧
    (compileAndRespondWithProject okBundler [] sampleInput "session-1").trace =
      [PipelineEvent.sessionStoreUpdate, PipelineEvent.compilerRun,
       PipelineEvent.respond] :=
  ⟨by decide, (pipeline_event_order okBundler [] sampleInput "session-1").1 (by decide)⟩

/-! ## C6: well-formed response artifact on every failure path -/

/-- C6: `failProject` always embeds the safe no-op fallback bundle and the
failure message in `compileError`; and every pipeline run — validation
failure, compile failure (which covers resolution errors and bundler
diagnostics), empty output, or success — produces an artifact whose meta
block carries the request's metadata and which either has no `compileError`
or has the fallback bundle together with a populated `compileError`.  The
artifact is total by construction, so no failure path escapes it. -/
theorem failure_artifact_wellFormed :
    (∀ (message : String) (fm : Option MetaOverrides)
        (fp : Option (Option PropRecord × Option PropRecord)),
      (failProject message fm fp).bundle = ERROR_FALLBACK_BUNDLE ∧
      (failProject message fm fp).compileError = some message) ∧
    (∀ (bundler : Bundler) (store : SessionStore) (input : ProjectVideoInput)
        (sessionId : String),
      (compileAndRespondWithProject bundler store input sessionId).artifact.meta =
        { title := input.title, compositionId := input.compositionId,
          width := input.width, height := input.height, fps := input.fps,
          durationInFrames := input.durationInFrames } ∧
      ((compileAndRespondWithProject bundler store input sessionId).artifact.compileError
          = none ∨
        ((compileAndRespondWithProject bundler store input sessionId).artifact.bundle =
            ERROR_FALLBACK_BUNDLE ∧
          ∃ msg,
            (compileAndRespondWithProject bundler store input sessionId).artifact.compileError
              = some msg))) := by
  constructor
  · intro message fm fp
    exact ⟨rfl, rfl⟩
  · intro bundler store input sessionId
    unfold compileAndRespondWithProject
    cases hv : firstValidationError input with
    | some e =>
      refine ⟨rfl, Or.inr ⟨rfl, e, rfl⟩⟩
    | none =>
      cases hc : compileProjectBundle bundler input.files input.entryFile with
      | error e =>
        exact ⟨rfl, Or.inr ⟨rfl, "Project compilation error: " ++ e, rfl⟩⟩
      | ok bundle =>
        exact ⟨rfl, Or.inl rfl⟩

/-! ## C1: merge/replace semantics of the resolved file map -/

/-- A previous session project used by the resolver examples. -/
def prevStateC1 : SessionProjectState :=
  { title := "Prev", compositionId := "Main", width := 1920, height := 1080,
    fps := 30, durationInFrames := 150, entryFile := "/src/Video.tsx",
    files := [("/a", "1"), ("/b", "2")],
    defaultProps := [("p", "1")], inputProps := [("q", "2")] }

/-- A merge-mode request that also deletes a file. -/
def reqC1 : CreateVideoRequest :=
  { files := some [("/b", "3"), ("/c", "4")], deleteFiles := some ["/a"] }

set_option maxRecDepth 8000 in
/-- C1 counterexample: with `usePreviousProject` defaulted to true, a
non-null previous project, merge mode and both file maps present, a request
that also lists `/a` in `deleteFiles` yields a file map that is *not* the
overlay of the request files onto the previous files: the overlay maps `/a`
to `"1"` but the result drops it, because `deleteFiles` removals run after
the merge step. -/
theorem resolveProjectInput_overlay_counterexample :
    (resolveProjectInput reqC1 (some prevStateC1)).updateMode = UpdateMode.merge ∧
    (resolveProjectInput reqC1 (some prevStateC1)).usedPreviousProject = true ∧
    ¬ (∀ k, getVal (((resolveProjectInput reqC1 (some prevStateC1)).project.files).getD []) k =
        getVal (objSpread prevStateC1.files [("/b", "3"), ("/c", "4")]) k) := by
  refine ⟨by decide, by decide, fun h => ?_⟩
  have := h "/a"
  revert this
  decide

/-- C1 (amended): provided `request.deleteFiles` is absent or empty (the
removals it triggers run after the merge/replace step), the resolved file
map obeys the claimed semantics: in merge mode with both maps present it is
the overlay of the request files onto the previous files with request
entries winning on key collision; in replace mode with request files present
it is exactly the request files; and when the request has no files it is
exactly the previous files, regardless of mode. -/
theorem resolveProjectInput_files_semantics
    (input : CreateVideoRequest) (p : SessionProjectState)
    (hup : input.usePreviousProject.getD true = true)
    (hdel : input.deleteFiles.getD [] = []) :
    (∀ f, input.files = some f → input.updateMode.getD UpdateMode.merge = UpdateMode.merge →
      ∃ m, (resolveProjectInput input (some p)).project.files = some m ∧
        ∀ k, getVal m k = (getVal f k).or (getVal p.files k)) ∧
    (∀ f, input.files = some f → input.updateMode.getD UpdateMode.merge = UpdateMode.replace →
      (resolveProjectInput input (some p)).project.files = some f) ∧
    (input.files = none →
      (resolveProjectInput input (some p)).project.files = some p.files) := by
  have hDelete : ∀ m : FileMap, deleteFilesFromMap m (input.deleteFiles.getD []) = (m, 0) := by
    intro m
    rw [hdel]
    rfl
  refine ⟨?_, ?_, ?_⟩
  · intro f hf hmode
    refine ⟨objSpread (cloneFileMap p.files) (cloneFileMap f), ?_, ?_⟩
    · unfold resolveProjectInput
      rw [hup]
      simp only [if_true, mergeStepFiles, hf, hmode, if_pos rfl, hDelete]
    · intro k
      exact getVal_objSpread p.files f k
  · intro f hf hmode
    unfold resolveProjectInput
    rw [hup]
    have hne : input.updateMode.getD UpdateMode.merge ≠ UpdateMode.merge := by
      rw [hmode]
      intro hcontra
      cases hcontra
    simp only [if_true, mergeStepFiles, hf, if_neg hne, hDelete]
    rfl
  · intro hf
    unfold resolveProjectInput
    rw [hup]
    simp only [if_true, mergeStepFiles, hf, hDelete]
    rfl

/-- C1 witness: the spec's merge-overlay example, with no `deleteFiles`:
previous `{/a:1, /b:2}` merged with request `{/b:3, /c:4}` maps `/a` to `1`,
`/b` to `3` and `/c` to `4`. -/
theorem resolveProjectInput_files_semantics_witness :
    (({ files := some [("/b", "3"), ("/c", "4")] } : CreateVideoRequest).usePreviousProject.getD
        true = true) ∧
    (({ files := some [("/b", "3"), ("/c", "4")] } : CreateVideoRequest).deleteFiles.getD
        [] = []) ∧
    ∃ m, (resolveProjectInput { files := some [("/b", "3"), ("/c", "4")] }
        (some prevStateC1)).project.files = some m ∧
      ∀ k, getVal m k =
        (getVal [("/b", "3"), ("/c", "4")] k).or (getVal prevStateC1.files k) :=
  ⟨by decide, by decide,
   (resolveProjectInput_files_semantics { files := some [("/b", "3"), ("/c", "4")] }
      prevStateC1 (by decide) (by decide)).1 _ rfl (by decide)⟩

/-! ## C9: first-non-null field precedence -/

/-- C9: with an eligible previous project (`usePreviousProject` true and a
non-null previous), every scalar and props field of the resolved record is
the first non-null of the request value, the previous value, and the fixed
default; with `usePreviousProject` explicitly false the previous project
is ignored entirely — the result coincides with resolving against no
previous project at all; and whenever the previous project is not consulted
(none stored, or `usePreviousProject` false), every field is the request
value when non-null and the fixed default otherwise — so the precedence
chain holds for every call. -/
theorem resolveProjectInput_field_precedence
    (input : CreateVideoRequest) (prev : Option SessionProjectState) :
    (∀ p, prev = some p → input.usePreviousProject.getD true = true →
      (resolveProjectInput input prev).project.title =
        specFieldPrecedence input.title (some p.title) DEFAULT_META.title ∧
      (resolveProjectInput input prev).project.compositionId =
        specFieldPrecedence input.compositionId (some p.compositionId)
          DEFAULT_META.compositionId ∧
      (resolveProjectInput input prev).project.width =
        specFieldPrecedence input.width (some p.width) DEFAULT_META.width ∧
      (resolveProjectInput input prev).project.height =
        specFieldPrecedence input.height (some p.height) DEFAULT_META.height ∧
      (resolveProjectInput input prev).project.fps =
        specFieldPrecedence input.fps (some p.fps) DEFAULT_META.fps ∧
      (resolveProjectInput input prev).project.durationInFrames =
        specFieldPrecedence input.durationInFrames (some p.durationInFrames)
          DEFAULT_META.durationInFrames ∧
      (resolveProjectInput input prev).project.entryFile =
        specFieldPrecedence input.entryFile (some p.entryFile) "/src/Video.tsx" ∧
      (resolveProjectInput input prev).project.defaultProps =
        specFieldPrecedence input.defaultProps (some p.defaultProps) [] ∧
      (resolveProjectInput input prev).project.inputProps =
        specFieldPrecedence input.inputProps (some p.inputProps) []) ∧
    (input.usePreviousProject = some false →
      resolveProjectInput input prev = resolveProjectInput input none) ∧
    (prev = none ∨ input.usePreviousProject = some false →
      (resolveProjectInput input prev).project.title =
        specFieldPrecedence input.title none DEFAULT_META.title ∧
      (resolveProjectInput input prev).project.compositionId =
        specFieldPrecedence input.compositionId none DEFAULT_META.compositionId ∧
      (resolveProjectInput input prev).project.width =
        specFieldPrecedence input.width none DEFAULT_META.width ∧
      (resolveProjectInput input prev).project.height =
        specFieldPrecedence input.height none DEFAULT_META.height ∧
      (resolveProjectInput input prev).project.fps =
        specFieldPrecedence input.fps none DEFAULT_META.fps ∧
      (resolveProjectInput input prev).project.durationInFrames =
        specFieldPrecedence input.durationInFrames none
          DEFAULT_META.durationInFrames ∧
      (resolveProjectInput input prev).project.entryFile =
        specFieldPrecedence input.entryFile none "/src/Video.tsx" ∧
      (resolveProjectInput input prev).project.defaultProps =
        specFieldPrecedence input.defaultProps none [] ∧
      (resolveProjectInput input prev).project.inputProps =
        specFieldPrecedence input.inputProps none []) := by
  refine ⟨?_, ?_, ?_⟩
  · rintro p rfl hup
    unfold resolveProjectInput
    rw [hup]
    simp only [if_true]
    refine ⟨?_, ?_, ?_, ?_, ?_, ?_, ?_, ?_, ?_⟩ <;>
      first
        | (cases input.title <;> rfl)
        | (cases input.compositionId <;> rfl)
        | (cases input.width <;> rfl)
        | (cases input.height <;> rfl)
        | (cases input.fps <;> rfl)
        | (cases input.durationInFrames <;> rfl)
        | (cases input.entryFile <;> rfl)
        | (cases input.defaultProps <;> rfl)
        | (cases input.inputProps <;> rfl)
  · intro hup
    unfold resolveProjectInput
    rw [hup]
    rfl
  · intro hcase
    have hnone : resolveProjectInput input prev = resolveProjectInput input none := by
      rcases hcase with rfl | hup
      · rfl
      · unfold resolveProjectInput
        rw [hup]
        rfl
    rw [hnone]
    simp only [resolveProjectInput, ite_self]
    refine ⟨?_, ?_, ?_, ?_, ?_, ?_, ?_, ?_, ?_⟩ <;>
      first
        | (cases input.title <;> rfl)
        | (cases input.compositionId <;> rfl)
        | (cases input.width <;> rfl)
        | (cases input.height <;> rfl)
        | (cases input.fps <;> rfl)
        | (cases input.durationInFrames <;> rfl)
        | (cases input.entryFile <;> rfl)
        | (cases input.defaultProps <;> rfl)
        | (cases input.inputProps <;> rfl)

/-- C9 witness: an empty request against a stored previous project inherits
every field from the previous project, and against no stored project it gets
every default. -/
theorem resolveProjectInput_field_precedence_witness :
    (({} : CreateVideoRequest).usePreviousProject.getD true = true) ∧
    (resolveProjectInput {} (some prevStateC1)).project.title =
      specFieldPrecedence ({} : CreateVideoRequest).title (some prevStateC1.title)
        DEFAULT_META.title ∧
    (resolveProjectInput {} none).project.title =
      specFieldPrecedence ({} : CreateVideoRequest).title none DEFAULT_META.title :=
  ⟨by decide,
   ((resolveProjectInput_field_precedence {} (some prevStateC1)).1 prevStateC1 rfl
      (by decide)).1,
   ((resolveProjectInput_field_precedence {} none).2.2 (Or.inl rfl)).1⟩

/-! ## C7: deleteFiles removals and the removal counter -/

theorem hasKey_true_iff (m : FileMap) (k : String) :
    hasKey m k = true ↔ k ∈ keysOf m := by
  simp [hasKey, keysOf, List.any_eq_true, beq_iff_eq, List.mem_map]

theorem NodupKeys_eraseKey (m : FileMap) (x : String) (h : NodupKeys m) :
    NodupKeys (eraseKey m x) := by
  unfold NodupKeys keysOf at h ⊢
  exact ((List.filter_sublist m).map _).nodup h

theorem length_eraseKey_add_one (m : FileMap) (x : String) (hm : NodupKeys m)
    (h : hasKey m x = true) : (eraseKey m x).length + 1 = m.length := by
  induction m with
  | nil => simp [hasKey] at h
  | cons kv rest ih =>
    obtain ⟨k₀, v₀⟩ := kv
    rw [eraseKey_cons]
    have hm' : NodupKeys rest := by
      simp only [NodupKeys, keysOf, List.map_cons, List.nodup_cons] at hm
      exact hm.2
    by_cases h0 : k₀ = x
    · subst h0
      rw [if_pos rfl]
      have hnotin : k₀ ∉ keysOf rest := by
        simp only [NodupKeys, keysOf, List.map_cons, List.nodup_cons] at hm
        exact hm.1
      have hnk : hasKey rest k₀ = false := by
        cases hr : hasKey rest k₀
        · rfl
        · exact absurd ((hasKey_true_iff rest k₀).mp hr) hnotin
      rw [eraseKey_of_not_hasKey rest k₀ hnk]
      simp
    · rw [if_neg h0]
      have hrest : hasKey rest x = true := by
        simp only [hasKey, List.any_cons, Bool.or_eq_true, beq_iff_eq] at h
        rcases h with h | h
        · exact absurd h h0
        · exact h
      have := ih hm' hrest
      simp only [List.length_cons]
      omega

theorem normAbs_head (p : String) : (normAbs p).data.head? = some '/' := by
  simp only [normAbs]
  split
  · rfl
  · split
    · rw [String.data_append, String.data_append]
      rfl
    · rw [String.data_append]
      rfl

theorem normalizeVirtualPath_head (p : String) :
    (normalizeVirtualPath p).data.head? = some '/' := by
  simp only [normalizeVirtualPath]
  exact normAbs_head _

theorem normalizeVirtualPath_not_proto (p : String) :
    normalizeVirtualPath p ∉ OBJECT_PROTOTYPE_NAMES := by
  intro hmem
  have hh := normalizeVirtualPath_head p
  simp only [OBJECT_PROTOTYPE_NAMES, List.mem_cons, List.not_mem_nil, or_false] at hmem
  rcases hmem with h | h | h | h | h | h | h | h | h | h | h | h <;>
    (rw [h] at hh; exact absurd hh (by decide))

theorem jsIn_eq_hasKey (m : FileMap) (k : String)
    (h : k ∉ OBJECT_PROTOTYPE_NAMES) : jsIn m k = hasKey m k := by
  unfold jsIn
  rw [decide_eq_false h, Bool.or_false]

theorem delStep_invariant (m : FileMap) (c : Nat) (fp : String) (hm : NodupKeys m)
    (hp : fp ∉ OBJECT_PROTOTYPE_NAMES) :
    NodupKeys (delStep (m, c) fp).1 ∧
    (delStep (m, c) fp).2 + (delStep (m, c) fp).1.length = c + m.length := by
  have hjs := jsIn_eq_hasKey m fp hp
  by_cases h : hasKey m fp = true
  · have h1 := length_eraseKey_add_one m fp hm h
    unfold delStep
    rw [hjs, if_pos h]
    refine ⟨NodupKeys_eraseKey m fp hm, ?_⟩
    show c + 1 + (eraseKey m fp).length = c + m.length
    omega
  · unfold delStep
    rw [hjs, if_neg h]
    exact ⟨hm, rfl⟩

theorem foldl_delStep_invariant (l : List String) :
    ∀ (m : FileMap) (c : Nat), NodupKeys m →
    (∀ x ∈ l, x ∉ OBJECT_PROTOTYPE_NAMES) →
    NodupKeys (l.foldl delStep (m, c)).1 ∧
    (l.foldl delStep (m, c)).2 + (l.foldl delStep (m, c)).1.length = c + m.length := by
  induction l with
  | nil => exact fun m c hm _ => ⟨hm, rfl⟩
  | cons x xs ih =>
    intro m c hm hl
    rw [List.foldl_cons]
    have h1 := delStep_invariant m c x hm (hl x (List.mem_cons_self x xs))
    have h2 := ih (delStep (m, c) x).1 (delStep (m, c) x).2 h1.1
      (fun y hy => hl y (List.mem_cons_of_mem x hy))
    exact ⟨h2.1, h2.2.trans h1.2⟩

theorem deleteOnePath_invariant (m : FileMap) (c : Nat) (p : String) (hm : NodupKeys m)
    (hp : p ∉ OBJECT_PROTOTYPE_NAMES) :
    NodupKeys (deleteOnePath (m, c) p).1 ∧
    (deleteOnePath (m, c) p).2 + (deleteOnePath (m, c) p).1.length = c + m.length := by
  refine foldl_delStep_invariant _ m c hm ?_
  intro x hx
  unfold addCand at hx
  by_cases hnp : normalizeVirtualPath p ∈ [p]
  · rw [if_pos hnp] at hx
    simp only [List.mem_singleton] at hx
    subst hx
    exact hp
  · rw [if_neg hnp] at hx
    simp only [List.mem_append, List.mem_singleton] at hx
    rcases hx with rfl | rfl
    · exact hp
    · exact normalizeVirtualPath_not_proto p

theorem foldl_deleteOnePath_invariant (ds : List String) :
    ∀ (m : FileMap) (c : Nat), NodupKeys m →
    (∀ p ∈ ds, p ∉ OBJECT_PROTOTYPE_NAMES) →
    NodupKeys (ds.foldl deleteOnePath (m, c)).1 ∧
    (ds.foldl deleteOnePath (m, c)).2 + (ds.foldl deleteOnePath (m, c)).1.length =
      c + m.length := by
  induction ds with
  | nil => exact fun m c hm _ => ⟨hm, rfl⟩
  | cons p ps ih =>
    intro m c hm hds
    rw [List.foldl_cons]
    have h1 := deleteOnePath_invariant m c p hm (hds p (List.mem_cons_self p ps))
    have h2 := ih (deleteOnePath (m, c) p).1 (deleteOnePath (m, c) p).2 h1.1
      (fun q hq => hds q (List.mem_cons_of_mem p hq))
    exact ⟨h2.1, h2.2.trans h1.2⟩

theorem getVal_delStep (m : FileMap) (c : Nat) (fp k : String) :
    getVal (delStep (m, c) fp).1 k = if k = fp then none else getVal m k := by
  rw [delStep_fst]
  exact getVal_eraseKey m fp k

theorem getVal_deleteOnePath (m : FileMap) (c : Nat) (p k : String) :
    getVal (deleteOnePath (m, c) p).1 k =
      if k = p ∨ k = normalizeVirtualPath p then none else getVal m k := by
  unfold deleteOnePath addCand
  by_cases hnp : normalizeVirtualPath p ∈ [p]
  · have hp : normalizeVirtualPath p = p := by simpa using hnp
    rw [if_pos hnp]
    show getVal (delStep (m, c) p).1 k =
      if k = p ∨ k = normalizeVirtualPath p then none else getVal m k
    rw [getVal_delStep, hp]
    by_cases hk : k = p <;> simp [hk]
  · rw [if_neg hnp]
    show getVal (delStep (delStep (m, c) p) (normalizeVirtualPath p)).1 k =
      if k = p ∨ k = normalizeVirtualPath p then none else getVal m k
    have h2 : getVal (delStep (delStep (m, c) p) (normalizeVirtualPath p)).1 k =
        if k = normalizeVirtualPath p then none
        else getVal (delStep (m, c) p).1 k :=
      getVal_delStep (delStep (m, c) p).1 (delStep (m, c) p).2
        (normalizeVirtualPath p) k
    rw [h2, getVal_delStep]
    by_cases hk1 : k = p <;> by_cases hk2 : k = normalizeVirtualPath p <;>
      simp [hk1, hk2]

theorem deleteFilesFromMap_eq_foldl (m : FileMap) (ds : List String) :
    deleteFilesFromMap m ds = ds.foldl deleteOnePath (m, 0) := by
  unfold deleteFilesFromMap
  cases ds with
  | nil => rfl
  | cons p ps => rfl

theorem getVal_foldl_deleteOnePath (ds : List String) (m : FileMap) (c : Nat)
    (k : String) :
    getVal (ds.foldl deleteOnePath (m, c)).1 k =
      if ds.any (fun p => k == p || k == normalizeVirtualPath p) then none
      else getVal m k := by
  induction ds generalizing m c with
  | nil => simp
  | cons p ps ih =>
    rw [List.foldl_cons]
    rcases hd : deleteOnePath (m, c) p with ⟨m₁, c₁⟩
    have h1 : getVal m₁ k =
        if k = p ∨ k = normalizeVirtualPath p then none else getVal m k := by
      have := getVal_deleteOnePath m c p k
      rw [hd] at this
      exact this
    rw [ih m₁ c₁]
    rw [List.any_cons]
    by_cases hhd : k = p ∨ k = normalizeVirtualPath p
    · have hb : (k == p || k == normalizeVirtualPath p) = true := by
        rcases hhd with h | h <;> simp [h]
      rw [hb]
      simp only [Bool.true_or, if_true]
      by_cases hps : ps.any (fun p => k == p || k == normalizeVirtualPath p) = true
      · simp [hps]
      · simp only [Bool.not_eq_true] at hps
        simp [hps, h1, hhd]
    · have hb : (k == p || k == normalizeVirtualPath p) = false := by
        push_neg at hhd
        simp [hhd.1, hhd.2]
      rw [hb]
      simp only [Bool.false_or]
      rw [h1, if_neg hhd]

/-- C7 counterexample: the JavaScript `in` test consults the prototype
chain, so the listed path `toString` matches no key of `{/a: 1}` in raw or
normalized form, removes nothing (the map and hence its size are unchanged),
yet the returned count is 1 — contradicting both that the count equals the
number of actual removals and that a listed path matching no key contributes
zero to the count. -/
theorem deleteFiles_count_counterexample :
    hasKey [("/a", "1")] "toString" = false ∧
    hasKey [("/a", "1")] (normalizeVirtualPath "toString") = false ∧
    (deleteFilesFromMap [("/a", "1")] ["toString"]).1 = [("/a", "1")] ∧
    (deleteFilesFromMap [("/a", "1")] ["toString"]).2 = 1 := by
  decide

/-- C7 (amended): after the merge/replace step, `resolveProjectInput` removes
every `deleteFiles` path in both raw and normalized form; the count equals
the number of candidates passing the JavaScript `in` test, which also
accepts inherited `Object.prototype` names, counting them without removing
anything.  Provided no listed path is such a prototype name: (a) with unique
keys the count is exactly the drop in map size; (b) (unconditionally) a key
survives exactly when no listed path matches it in raw or normalized form;
(c) a listed non-prototype-name path matching no key (in either form) leaves
the map and the counter untouched; (d) the resolver's returned file map and
`deletedFiles` count are precisely `deleteFilesFromMap` applied to the
merge/replace result. -/
theorem deleteFiles_semantics :
    (∀ (m : FileMap) (ds : List String), NodupKeys m →
      (∀ p ∈ ds, p ∉ OBJECT_PROTOTYPE_NAMES) →
      (deleteFilesFromMap m ds).2 =
        m.length - (deleteFilesFromMap m ds).1.length) ∧
    (∀ (m : FileMap) (ds : List String) (k : String),
      getVal (deleteFilesFromMap m ds).1 k =
        if ds.any (fun p => k == p || k == normalizeVirtualPath p) then none
        else getVal m k) ∧
    (∀ (m : FileMap) (c : Nat) (p : String), p ∉ OBJECT_PROTOTYPE_NAMES →
      hasKey m p = false →
      hasKey m (normalizeVirtualPath p) = false →
      deleteOnePath (m, c) p = (m, c)) ∧
    (∀ (input : CreateVideoRequest) (prev : Option SessionProjectState),
      (resolveProjectInput input prev).project.files =
        (mergeStepFiles input.files
          (if input.usePreviousProject.getD true then prev else none)
          (input.updateMode.getD UpdateMode.merge)).map
          (fun m => (deleteFilesFromMap m (input.deleteFiles.getD [])).1) ∧
      (resolveProjectInput input prev).deletedFiles =
        (mergeStepFiles input.files
          (if input.usePreviousProject.getD true then prev else none)
          (input.updateMode.getD UpdateMode.merge)).elim 0
          (fun m => (deleteFilesFromMap m (input.deleteFiles.getD [])).2)) := by
  refine ⟨?_, ?_, ?_, ?_⟩
  · intro m ds hm hds
    rw [deleteFilesFromMap_eq_foldl]
    have := (foldl_deleteOnePath_invariant ds m 0 hm hds).2
    omega
  · intro m ds k
    rw [deleteFilesFromMap_eq_foldl]
    exact getVal_foldl_deleteOnePath ds m 0 k
  · intro m c p hp h1 h2
    have hs1 : delStep (m, c) p = (m, c) := by
      unfold delStep
      rw [jsIn_eq_hasKey m p hp, h1]
      rfl
    have hs2 : delStep (m, c) (normalizeVirtualPath p) = (m, c) := by
      unfold delStep
      rw [jsIn_eq_hasKey m (normalizeVirtualPath p) (normalizeVirtualPath_not_proto p), h2]
      rfl
    unfold deleteOnePath addCand
    by_cases hnp : normalizeVirtualPath p ∈ [p]
    · rw [if_pos hnp]
      show delStep (m, c) p = (m, c)
      exact hs1
    · rw [if_neg hnp]
      show delStep (delStep (m, c) p) (normalizeVirtualPath p) = (m, c)
      rw [hs1]
      exact hs2
  · intro input prev
    simp only [resolveProjectInput]
    cases hms : mergeStepFiles input.files
        (if input.usePreviousProject.getD true = true then prev else none)
        (input.updateMode.getD UpdateMode.merge) with
    | none => exact ⟨rfl, rfl⟩
    | some m => exact ⟨rfl, rfl⟩

/-- C7 witness: deleting `/a` (present) and `/x` (absent), neither a
prototype name, from `{/a:1, /b:2}` counts exactly the one actual removal,
the size drop. -/
theorem deleteFiles_semantics_witness :
    NodupKeys [("/a", "1"), ("/b", "2")] ∧
    (deleteFilesFromMap [("/a", "1"), ("/b", "2")] ["/a", "/x"]).2 =
      ([("/a", "1"), ("/b", "2")] : FileMap).length -
        (deleteFilesFromMap [("/a", "1"), ("/b", "2")] ["/a", "/x"]).1.length ∧
    (deleteFilesFromMap [("/a", "1"), ("/b", "2")] ["/a", "/x"]).2 = 1 :=
  ⟨by unfold NodupKeys; decide,
   deleteFiles_semantics.1 _ _ (by unfold NodupKeys; decide) (by decide),
   by decide⟩

/-! ## C3: session-store capacity bound and LRU eviction -/

theorem storeHas_false_of_not_mem (store : SessionStore) (id : String)
    (h : id ∉ store.map (·.1)) : storeHas store id = false := by
  cases hs : storeHas store id
  · rfl
  · exfalso
    apply h
    simp only [storeHas, List.any_eq_true, beq_iff_eq] at hs
    obtain ⟨kv, hmem, rfl⟩ := hs
    exact List.mem_map_of_mem _ hmem

theorem rememberSessionProject_length_le (store : SessionStore) (id : String)
    (p : SessionProjectState) (h : store.length ≤ MAX_SESSION_PROJECTS) :
    (rememberSessionProject store id p).length ≤ MAX_SESSION_PROJECTS := by
  unfold rememberSessionProject
  by_cases hid : id = ""
  · rw [if_pos hid]
    exact h
  · rw [if_neg hid]
    have hlen1 : (if storeHas store id = true then storeDelete store id else store).length ≤
        store.length := by
      by_cases hs : storeHas store id = true
      · rw [if_pos hs]
        exact List.length_filter_le _ _
      · rw [if_neg hs]
    rw [List.length_drop]
    rw [List.length_append]
    simp only [List.length_cons, List.length_nil]
    omega

theorem clearSessionProject_length_le (store : SessionStore) (id : String) :
    (clearSessionProject store id).length ≤ store.length :=
  List.length_filter_le _ _

theorem applySessionOp_length_le (store : SessionStore) (op : SessionOp)
    (h : store.length ≤ MAX_SESSION_PROJECTS) :
    (applySessionOp store op).length ≤ MAX_SESSION_PROJECTS := by
  cases op with
  | remember id p => exact rememberSessionProject_length_le store id p h
  | clear id => exact le_trans (clearSessionProject_length_le store id) h

theorem foldl_applySessionOp_length_le (ops : List SessionOp) (store : SessionStore)
    (h : store.length ≤ MAX_SESSION_PROJECTS) :
    (ops.foldl applySessionOp store).length ≤ MAX_SESSION_PROJECTS := by
  induction ops generalizing store with
  | nil => exact h
  | cons op rest ih =>
    rw [List.foldl_cons]
    exact ih _ (applySessionOp_length_le store op h)

theorem rememberSessionProject_fresh_small (store : SessionStore) (id : String)
    (p : SessionProjectState) (hid : id ≠ "") (hfresh : storeHas store id = false)
    (hlen : store.length + 1 ≤ MAX_SESSION_PROJECTS) :
    rememberSessionProject store id p = store ++ [(id, p)] := by
  unfold rememberSessionProject
  rw [if_neg hid]
  have hs : ¬ storeHas store id = true := by rw [hfresh]; exact Bool.false_ne_true
  rw [if_neg hs]
  show (store ++ [(id, p)]).drop ((store ++ [(id, p)]).length - MAX_SESSION_PROJECTS) =
    store ++ [(id, p)]
  have hz : (store ++ [(id, p)]).length - MAX_SESSION_PROJECTS = 0 := by
    rw [List.length_append]
    simp only [List.length_cons, List.length_nil]
    omega
  rw [hz, List.drop_zero]

theorem rememberSessionProject_fresh_full (store : SessionStore) (id : String)
    (p : SessionProjectState) (hid : id ≠ "") (hfresh : storeHas store id = false)
    (hlen : store.length = MAX_SESSION_PROJECTS) :
    rememberSessionProject store id p = store.drop 1 ++ [(id, p)] := by
  unfold rememberSessionProject
  rw [if_neg hid]
  have hs : ¬ storeHas store id = true := by rw [hfresh]; exact Bool.false_ne_true
  rw [if_neg hs]
  show (store ++ [(id, p)]).drop ((store ++ [(id, p)]).length - MAX_SESSION_PROJECTS) =
    store.drop 1 ++ [(id, p)]
  have hz : (store ++ [(id, p)]).length - MAX_SESSION_PROJECTS = 1 := by
    rw [List.length_append]
    simp only [List.length_cons, List.length_nil]
    omega
  rw [hz]
  exact List.drop_append_of_le_length
    (by simp only [MAX_SESSION_PROJECTS] at hlen; omega)

theorem fill_foldl_remember (ids : List String) (p : SessionProjectState)
    (store : SessionStore) (hnd : ids.Nodup) (hne : ∀ i ∈ ids, i ≠ "")
    (hfresh : ∀ i ∈ ids, storeHas store i = false)
    (hlen : store.length + ids.length ≤ MAX_SESSION_PROJECTS) :
    ids.foldl (fun s i => rememberSessionProject s i p) store =
      store ++ ids.map (fun i => (i, p)) := by
  induction ids generalizing store with
  | nil => simp
  | cons id rest ih =>
    rw [List.foldl_cons]
    have hlen' : store.length + 1 ≤ MAX_SESSION_PROJECTS := by
      simp only [List.length_cons] at hlen
      omega
    rw [rememberSessionProject_fresh_small store id p (hne id (by simp))
      (hfresh id (by simp)) hlen']
    have hnd' : rest.Nodup := (List.nodup_cons.mp hnd).2
    have hidnotin : id ∉ rest := (List.nodup_cons.mp hnd).1
    have hfresh' : ∀ i ∈ rest, storeHas (store ++ [(id, p)]) i = false := by
      intro i hi
      have h1 : storeHas store i = false := hfresh i (List.mem_cons_of_mem _ hi)
      have h2 : i ≠ id := fun hcontra => hidnotin (hcontra ▸ hi)
      simp only [storeHas, List.any_append, List.any_cons, List.any_nil,
        Bool.or_false, Bool.or_eq_false_iff]
      refine ⟨h1, ?_⟩
      exact beq_eq_false_iff_ne.mpr (fun hcontra => h2 hcontra.symm)
    have hlen'' : (store ++ [(id, p)]).length + rest.length ≤ MAX_SESSION_PROJECTS := by
      rw [List.length_append]
      simp only [List.length_cons, List.length_nil, List.length_cons] at hlen ⊢
      omega
    rw [ih (store ++ [(id, p)]) hnd' (fun i hi => hne i (List.mem_cons_of_mem _ hi))
      hfresh' hlen'']
    simp

/-- C3: (capacity bound) after any sequence of remember/clear operations on
the initially empty store, at most `MAX_SESSION_PROJECTS` (250) entries
remain; (eviction) remembering `capacity + 1` pairwise-distinct non-empty
session ids, each with a project, leaves exactly 250 entries and the first
(least-recently-remembered) session id is absent. -/
theorem sessionStore_capacity_eviction :
    (∀ ops : List SessionOp,
      (runSessionOps ops).length ≤ MAX_SESSION_PROJECTS) ∧
    (∀ (ids : List String) (p : SessionProjectState), ids.Nodup →
      (∀ i ∈ ids, i ≠ "") → ids.length = MAX_SESSION_PROJECTS + 1 →
      (ids.foldl (fun s i => rememberSessionProject s i p) []).length =
        MAX_SESSION_PROJECTS ∧
      ∀ hd, ids.head? = some hd →
        storeHas (ids.foldl (fun s i => rememberSessionProject s i p) []) hd = false) := by
  constructor
  · intro ops
    exact foldl_applySessionOp_length_le ops [] (by simp [MAX_SESSION_PROJECTS])
  · intro ids p hnd hne hlen
    cases ids with
    | nil => simp at hlen
    | cons hd tl =>
      have hhd_notin : hd ∉ tl := (List.nodup_cons.mp hnd).1
      have hnd_tl : tl.Nodup := (List.nodup_cons.mp hnd).2
      have htl_len : tl.length = MAX_SESSION_PROJECTS := by
        simp only [List.length_cons] at hlen
        omega
      have htl_ne : tl ≠ [] := by
        intro hcontra
        rw [hcontra] at htl_len
        simp [MAX_SESSION_PROJECTS] at htl_len
      have hlast := List.dropLast_append_getLast htl_ne
      set lastid := tl.getLast htl_ne with hlastid
      set mid := tl.dropLast with hmid
      have hmid_len : mid.length = MAX_SESSION_PROJECTS - 1 := by
        rw [hmid, List.length_dropLast, htl_len]
      have hmid_sub : ∀ i ∈ mid, i ∈ tl := by
        intro i hi
        rw [hmid] at hi
        exact (List.dropLast_sublist tl).subset hi
      have hlast_mem : lastid ∈ tl := by
        rw [hlastid]
        exact List.getLast_mem htl_ne
      have hlast_ne_hd : lastid ≠ hd := fun hcontra => hhd_notin (hcontra ▸ hlast_mem)
      have hlast_notin_mid : lastid ∉ mid := by
        have hnd_split : (mid ++ [lastid]).Nodup := by
          rw [hlast]
          exact hnd_tl
        have hdisj := (List.nodup_append.mp hnd_split).2.2
        intro hcontra
        exact hdisj hcontra (by simp)
      have hhd_notin_mid : hd ∉ mid := fun hcontra => hhd_notin (hmid_sub hd hcontra)
      -- run the first insert
      rw [List.foldl_cons]
      have hstep1 : rememberSessionProject [] hd p = [(hd, p)] :=
        rememberSessionProject_fresh_small [] hd p (hne hd (by simp)) rfl
          (by simp [MAX_SESSION_PROJECTS])
      rw [hstep1]
      -- split the tail into mid ++ [lastid]
      rw [← hlast, List.foldl_append, List.foldl_cons, List.foldl_nil]
      have hmid_nodup : mid.Nodup := hnd_tl.sublist (by rw [hmid]; exact List.dropLast_sublist tl)
      have hmid_fresh : ∀ i ∈ mid, storeHas [(hd, p)] i = false := by
        intro i hi
        have hne_hd : i ≠ hd := fun hcontra => hhd_notin (hcontra ▸ hmid_sub i hi)
        have hne_hd2 : ¬hd = i := fun hcontra => hne_hd hcontra.symm
        simp [storeHas, hne_hd2]
      have hmid_ne : ∀ i ∈ mid, i ≠ "" := fun i hi =>
        hne i (List.mem_cons_of_mem _ (hmid_sub i hi))
      have hfill := fill_foldl_remember mid p [(hd, p)] hmid_nodup hmid_ne hmid_fresh
        (by simp only [List.length_cons, List.length_nil, hmid_len,
              MAX_SESSION_PROJECTS]
            omega)
      rw [hfill]
      -- the final insert evicts the head
      have hlast_fresh : storeHas ([(hd, p)] ++ mid.map (fun i => (i, p))) lastid = false := by
        apply storeHas_false_of_not_mem
        simp only [List.map_append, List.map_map, List.map_cons, List.map_nil,
          List.mem_append, List.mem_cons, List.not_mem_nil]
        intro hcontra
        rcases hcontra with h | h
        · rcases h with h | h
          · exact hlast_ne_hd h
          · exact h
        · apply hlast_notin_mid
          simpa using h
      have hlen250 : ([(hd, p)] ++ mid.map (fun i => (i, p))).length =
          MAX_SESSION_PROJECTS := by
        rw [List.length_append, List.length_map, hmid_len]
        simp [MAX_SESSION_PROJECTS]
      have hlast_ne : lastid ≠ "" := hne lastid (List.mem_cons_of_mem _ hlast_mem)
      rw [rememberSessionProject_fresh_full _ lastid p hlast_ne hlast_fresh hlen250]
      have hdrop : ([(hd, p)] ++ mid.map (fun i => (i, p))).drop 1 =
          mid.map (fun i => (i, p)) := by
        simp
      rw [hdrop]
      constructor
      · rw [List.length_append, List.length_map, hmid_len]
        simp [MAX_SESSION_PROJECTS]
      · intro hd' hh
        have hhd' : hd = hd' := by simpa using hh
        subst hhd'
        apply storeHas_false_of_not_mem
        simp only [List.map_append, List.map_map, List.map_cons, List.map_nil,
          List.mem_append, List.mem_cons, List.not_mem_nil]
        intro hcontra
        rcases hcontra with h | h
        · apply hhd_notin_mid
          simpa using h
        · rcases h with h | h
          · exact hlast_ne_hd h.symm
          · exact h

/-- Distinct non-empty session ids for the eviction witness: the id of index
`n` is the string of `n + 1` letters `a`. -/
def evictId (n : Nat) : String := String.mk (List.replicate (n + 1) 'a')

/-- `MAX_SESSION_PROJECTS + 1` distinct non-empty session ids. -/
def evictIds : List String := (List.range (MAX_SESSION_PROJECTS + 1)).map evictId

theorem evictId_injective : Function.Injective evictId := by
  intro a b hab
  have hdata : List.replicate (a + 1) 'a' = List.replicate (b + 1) 'a' :=
    congrArg String.data hab
  have hlen := congrArg List.length hdata
  simp only [List.length_replicate] at hlen
  omega

theorem evictIds_nodup : evictIds.Nodup :=
  (List.nodup_range _).map evictId_injective

theorem evictIds_ne_empty : ∀ i ∈ evictIds, i ≠ "" := by
  intro i hi
  simp only [evictIds, List.mem_map] at hi
  obtain ⟨n, -, rfl⟩ := hi
  intro hcontra
  have hdata : List.replicate (n + 1) 'a' = ([] : List Char) :=
    congrArg String.data hcontra
  have hlen := congrArg List.length hdata
  simp at hlen

theorem evictIds_length : evictIds.length = MAX_SESSION_PROJECTS + 1 := by
  simp [evictIds]

/-- C3 witness: 251 concrete distinct ids leave exactly 250 entries, with
the first id evicted. -/
theorem sessionStore_capacity_eviction_witness :
    (evictIds.foldl (fun s i => rememberSessionProject s i sampleInput) []).length =
      MAX_SESSION_PROJECTS ∧
    storeHas (evictIds.foldl (fun s i => rememberSessionProject s i sampleInput) [])
      (evictId 0) = false := by
  have h := sessionStore_capacity_eviction.2 evictIds sampleInput evictIds_nodup
    evictIds_ne_empty evictIds_length
  refine ⟨h.1, h.2 (evictId 0) ?_⟩
  show ((List.range (MAX_SESSION_PROJECTS + 1)).map evictId).head? = some (evictId 0)
  rw [List.head?_map]
  rw [List.range_succ_eq_map]
  rfl

/-! ## C5: missing entry file error -/

theorem strIncludes_there (s t : String) : strIncludes (s ++ t) t = true := by
  unfold strIncludes
  rw [chSub_iff]
  exact ⟨s.data, [], by simp [String.data_append]⟩

theorem strIncludes_empty_target (s : String) (h : strIncludes "" s = true) :
    s = "" := by
  have hempty : s.data.isEmpty = true := h
  apply String.ext
  simpa using List.isEmpty_iff.mp hempty

/-- C5: whenever the normalized entry file is not a key of the normalized
file map, `compileProjectBundle` fails — before ever invoking the bundler —
with the message that names the missing (normalized) entry file and lists
every available (normalized) file key. -/
theorem compileProjectBundle_missing_entry (bundler : Bundler) (files : FileMap)
    (entryFile : String)
    (habs : hasKey (normalizeFileMap files) (normalizeVirtualPath entryFile) = false) :
    compileProjectBundle bundler files entryFile =
      .error (entryMissingMessage (normalizeVirtualPath entryFile)
        (normalizeFileMap files)) ∧
    strIncludes (entryMissingMessage (normalizeVirtualPath entryFile)
      (normalizeFileMap files)) (normalizeVirtualPath entryFile) = true ∧
    ∀ k ∈ keysOf (normalizeFileMap files),
      strIncludes (entryMissingMessage (normalizeVirtualPath entryFile)
        (normalizeFileMap files)) k = true := by
  refine ⟨?_, ?_, ?_⟩
  · simp only [compileProjectBundle]
    rw [habs]
    rfl
  · simp only [entryMissingMessage]
    apply strIncludes_append_right
    apply strIncludes_append_right
    apply strIncludes_append_right
    exact strIncludes_there _ _
  · intro k hk
    have hks : k ∈ sortStrings (keysOf (normalizeFileMap files)) :=
      (mem_sortStrings k _).mpr hk
    have hkav : strIncludes (joinSep ", " (sortStrings (keysOf (normalizeFileMap files))))
        k = true := strIncludes_joinSep_of_mem _ _ _ hks
    simp only [entryMissingMessage]
    by_cases hav : joinSep ", " (sortStrings (keysOf (normalizeFileMap files))) = ""
    · have hk0 : k = "" := strIncludes_empty_target k (hav ▸ hkav)
      rw [hk0]
      exact strIncludes_empty _
    · rw [if_neg hav]
      apply strIncludes_append_right
      apply strIncludes_append_left
      exact hkav

/-- A bundler whose result is irrelevant (the entry check precedes it). -/
def missBundler : Bundler := fun _ _ => .error "never reached"

set_option maxRecDepth 8000 in
/-- C5 witness: the spec's concrete example: compiling `{/a.tsx: ...}` with
entry `/missing.tsx` throws a message naming `/missing.tsx` and listing
`/a.tsx`. -/
theorem compileProjectBundle_missing_entry_witness :
    hasKey (normalizeFileMap [("/a.tsx", "export default 1")])
      (normalizeVirtualPath "/missing.tsx") = false ∧
    compileProjectBundle missBundler [("/a.tsx", "export default 1")] "/missing.tsx" =
      .error (entryMissingMessage (normalizeVirtualPath "/missing.tsx")
        (normalizeFileMap [("/a.tsx", "export default 1")])) ∧
    strIncludes (entryMissingMessage (normalizeVirtualPath "/missing.tsx")
      (normalizeFileMap [("/a.tsx", "export default 1")])) "/missing.tsx" = true ∧
    strIncludes (entryMissingMessage (normalizeVirtualPath "/missing.tsx")
      (normalizeFileMap [("/a.tsx", "export default 1")])) "/a.tsx" = true :=
  ⟨by decide,
   (compileProjectBundle_missing_entry missBundler [("/a.tsx", "export default 1")]
      "/missing.tsx" (by decide)).1,
   by decide, by decide⟩

/-! ## C8: runtime shim export forwarding and the missing-registry error -/

/-- C8: the shim's named-export list is exactly the valid identifiers of the
module namespace other than `default`; the generated source contains a
forwarding line for each of them, the default-export forwarding line, and
the quoted `Missing runtime module: <name>` message; and evaluating the shim
(`runShim`) with the registry entry absent throws exactly that error, while
with the entry present it binds `default` and each valid named export to the
registry entry's fields. -/
theorem createRuntimeShim_exports (moduleName : String) (moduleKeys : List String) :
    (∀ n, n ∈ shimNamedExports moduleKeys ↔
      (n ∈ moduleKeys ∧ n ≠ "default" ∧ isValidIdentifier n = true)) ∧
    (∀ n, n ∈ shimNamedExports moduleKeys →
      strIncludes (createRuntimeShim moduleName moduleKeys)
        ("export const " ++ n ++ " = runtime." ++ n ++ ";") = true) ∧
    strIncludes (createRuntimeShim moduleName moduleKeys)
      "export default runtime.default;" = true ∧
    strIncludes (createRuntimeShim moduleName moduleKeys)
      (jsonQuote ("Missing runtime module: " ++ moduleName)) = true ∧
    (∀ registry, registry moduleName = none →
      runShim registry moduleName moduleKeys =
        .error ("Missing runtime module: " ++ moduleName)) ∧
    (∀ registry runtime, registry moduleName = some runtime →
      runShim registry moduleName moduleKeys =
        .ok (("default", runtime "default") ::
          (shimNamedExports moduleKeys).map (fun n => (n, runtime n)))) := by
  refine ⟨?_, ?_, ?_, ?_, ?_, ?_⟩
  · intro n
    unfold shimNamedExports
    rw [mem_sortStrings, List.mem_filter]
    simp [Bool.and_eq_true, beq_iff_eq, ne_eq]
  · intro n hn
    have hline : ("export const " ++ n ++ " = runtime." ++ n ++ ";") ∈
        (shimNamedExports moduleKeys).map
          (fun name => "export const " ++ name ++ " = runtime." ++ name ++ ";") :=
      List.mem_map_of_mem _ hn
    have hsub := strIncludes_joinSep_of_mem "\n"
      ((shimNamedExports moduleKeys).map
        (fun name => "export const " ++ name ++ " = runtime." ++ name ++ ";"))
      _ hline
    unfold createRuntimeShim
    apply strIncludes_trans _ _ _ hsub
    show strIncludes (joinSep "\n" [_, _, _, _, _, ""]) _ = true
    apply strIncludes_joinSep_of_mem
    simp
  · unfold createRuntimeShim
    apply strIncludes_joinSep_of_mem
    simp
  · unfold createRuntimeShim
    apply strIncludes_trans _ _ _ (strIncludes_there
      ("if (!runtime) throw new Error(")
      (jsonQuote ("Missing runtime module: " ++ moduleName)))
    apply strIncludes_trans _ _ _ (strIncludes_append_right _ ");" _
      (strIncludes_self _))
    apply strIncludes_joinSep_of_mem
    simp
  · intro registry hreg
    unfold runShim
    rw [hreg]
  · intro registry runtime hreg
    unfold runShim
    rw [hreg]

set_option maxRecDepth 8000 in
/-- C8 witness: a concrete module namespace: the valid name `Children` is
forwarded, the default is forwarded, and an empty registry yields the
descriptive error. -/
theorem createRuntimeShim_exports_witness :
    ("Children" ∈ shimNamedExports ["Children", "default", "not-valid"]) ∧
    strIncludes (createRuntimeShim "react" ["Children", "default", "not-valid"])
      ("export const " ++ "Children" ++ " = runtime." ++ "Children" ++ ";") = true ∧
    strIncludes (createRuntimeShim "react" ["Children", "default", "not-valid"])
      "export default runtime.default;" = true ∧
    runShim (fun _ => none) "react" ["Children", "default", "not-valid"] =
      .error ("Missing runtime module: " ++ "react") :=
  ⟨by decide,
   (createRuntimeShim_exports "react" ["Children", "default", "not-valid"]).2.1
     "Children" (by decide),
   (createRuntimeShim_exports "react" ["Children", "default", "not-valid"]).2.2.1,
   (createRuntimeShim_exports "react" ["Children", "default", "not-valid"]).2.2.2.2.1
     (fun _ => none) rfl⟩

/-! ## C10: heap frame lemmas -/

theorem find?_writeCell (cells : List (Nat × FileMap)) (r x : Nat) (v : FileMap)
    (hx : x ≠ r) :
    (cells.map (fun c => if c.1 = r then (r, v) else c)).find?
        (fun c => c.1 == x) =
      cells.find? (fun c => c.1 == x) := by
  induction cells with
  | nil => rfl
  | cons c cs ih =>
    obtain ⟨ck, cv⟩ := c
    by_cases hc : ck = r
    · subst hc
      have hck : (ck == x) = false := by
        simp only [beq_eq_false_iff_ne, ne_eq]
        exact fun hcontra => hx hcontra.symm
      simp [hck, ih]
    · simp only [List.map_cons, List.find?_cons]
      simp only [if_neg hc]
      cases hck : (ck == x) <;> simp [hck, ih]

theorem readH_writeH_ne (h : Heap) (r x : Nat) (v : FileMap) (hx : x ≠ r) :
    readH (writeH h r v) x = readH h x := by
  unfold readH writeH
  rw [find?_writeCell h.cells r x v hx]

theorem readH_allocH_ne (h : Heap) (v : FileMap) (x : Nat) (hx : x ≠ h.next) :
    readH (allocH h v).1 x = readH h x := by
  unfold readH allocH
  simp only [List.find?_append]
  cases hf : h.cells.find? (fun c => c.1 == x)
  · have : ((h.next == x) : Bool) = false := by
      simp
      exact fun hcontra => hx hcontra.symm
    simp [Option.or, this]
  · simp [Option.or]

theorem WfHeap_writeH (h : Heap) (r : Nat) (v : FileMap) (hw : WfHeap h) :
    WfHeap (writeH h r v) := by
  intro c hc
  unfold writeH at hc
  simp only [List.mem_map] at hc
  obtain ⟨c₀, hc₀, hfc⟩ := hc
  have hb := hw c₀ hc₀
  by_cases hr : c₀.1 = r
  · rw [← hfc]
    simp only [if_pos hr]
    show r < h.next
    rw [← hr]
    exact hb
  · rw [← hfc]
    simp only [if_neg hr]
    exact hb

theorem WfHeap_allocH (h : Heap) (v : FileMap) (hw : WfHeap h) :
    WfHeap (allocH h v).1 := by
  intro c hc
  unfold allocH at hc
  simp only [List.mem_append, List.mem_cons, List.not_mem_nil, or_false] at hc
  show c.1 < h.next + 1
  rcases hc with hc | hc
  · exact Nat.lt_succ_of_lt (hw c hc)
  · rw [hc]
    exact Nat.lt_succ_self _

/-- Evolution of the heap during a call, relative to the heap at entry:
well-formed, allocation counter monotone, and every pre-existing reference
reads unchanged. -/
def HeapStep (h₀ h' : Heap) : Prop :=
  WfHeap h' ∧ h₀.next ≤ h'.next ∧ ∀ r, r < h₀.next → readH h' r = readH h₀ r

theorem HeapStep.refl_of_wf (h : Heap) (hw : WfHeap h) : HeapStep h h :=
  ⟨hw, Nat.le_refl _, fun _ _ => rfl⟩

theorem HeapStep.trans_step (h₀ h₁ h₂ : Heap) (hs₁ : HeapStep h₀ h₁)
    (hs₂ : HeapStep h₁ h₂) : HeapStep h₀ h₂ := by
  refine ⟨hs₂.1, Nat.le_trans hs₁.2.1 hs₂.2.1, ?_⟩
  intro r hr
  rw [hs₂.2.2 r (Nat.lt_of_lt_of_le hr hs₁.2.1), hs₁.2.2 r hr]

theorem allocH_heapStep (h₀ h : Heap) (v : FileMap) (hs : HeapStep h₀ h) :
    HeapStep h₀ (allocH h v).1 := by
  refine HeapStep.trans_step h₀ h _ hs ⟨WfHeap_allocH h v hs.1, ?_, ?_⟩
  · show h.next ≤ h.next + 1
    exact Nat.le_succ _
  · intro r hr
    exact readH_allocH_ne h v r (Nat.ne_of_lt hr)

theorem writeH_heapStep (h₀ h : Heap) (r : Nat) (v : FileMap) (hs : HeapStep h₀ h)
    (hr : h₀.next ≤ r) : HeapStep h₀ (writeH h r v) := by
  refine ⟨WfHeap_writeH h r v hs.1, hs.2.1, ?_⟩
  intro x hx
  rw [readH_writeH_ne h r x v (Nat.ne_of_lt (Nat.lt_of_lt_of_le hx hr))]
  exact hs.2.2 x hx

theorem cloneMapH_heapStep (h₀ h : Heap) (r : Nat) (hs : HeapStep h₀ h) :
    HeapStep h₀ (cloneMapH h r).1 :=
  allocH_heapStep h₀ h _ hs

theorem delStepH_heapStep (h₀ : Heap) (fr : Nat) (hfr : h₀.next ≤ fr)
    (acc : Heap × Nat) (hs : HeapStep h₀ acc.1) (fp : String) :
    HeapStep h₀ (delStepH fr acc fp).1 := by
  unfold delStepH
  by_cases hk : jsIn ((readH acc.1 fr).getD []) fp = true
  · rw [if_pos hk]
    exact writeH_heapStep h₀ acc.1 fr _ hs hfr
  · rw [if_neg hk]
    exact hs

theorem foldl_delStepH_heapStep (l : List String) (h₀ : Heap) (fr : Nat)
    (hfr : h₀.next ≤ fr) (acc : Heap × Nat) (hs : HeapStep h₀ acc.1) :
    HeapStep h₀ (l.foldl (delStepH fr) acc).1 := by
  induction l generalizing acc with
  | nil => exact hs
  | cons fp rest ih =>
    rw [List.foldl_cons]
    exact ih _ (delStepH_heapStep h₀ fr hfr acc hs fp)

theorem deleteOnePathH_heapStep (h₀ : Heap) (fr : Nat) (hfr : h₀.next ≤ fr)
    (acc : Heap × Nat) (hs : HeapStep h₀ acc.1) (rawPath : String) :
    HeapStep h₀ (deleteOnePathH fr acc rawPath).1 :=
  foldl_delStepH_heapStep _ h₀ fr hfr acc hs

theorem deleteFilesFromMapH_heapStep (h₀ h : Heap) (fr : Nat) (ds : List String)
    (hs : HeapStep h₀ h) (hfr : h₀.next ≤ fr) :
    HeapStep h₀ (deleteFilesFromMapH h fr ds).1 := by
  unfold deleteFilesFromMapH
  by_cases hds : ds.isEmpty = true
  · rw [if_pos hds]
    exact hs
  · rw [if_neg hds]
    have : ∀ (l : List String) (acc : Heap × Nat), HeapStep h₀ acc.1 →
        HeapStep h₀ (l.foldl (deleteOnePathH fr) acc).1 := by
      intro l
      induction l with
      | nil => intro acc hacc; exact hacc
      | cons p ps ih =>
        intro acc hacc
        rw [List.foldl_cons]
        exact ih _ (deleteOnePathH_heapStep h₀ fr hfr acc hacc p)
    exact this ds (h, 0) hs

theorem mergeStepFilesH_heapStep (h : Heap) (inputFiles : Option Nat)
    (base : Option SessionProjectStateH) (updateMode : UpdateMode)
    (hw : WfHeap h) :
    HeapStep h (mergeStepFilesH h inputFiles base updateMode).1 ∧
    (∀ mR, (mergeStepFilesH h inputFiles base updateMode).2 = some mR →
      h.next ≤ mR) := by
  have hrefl := HeapStep.refl_of_wf h hw
  cases inputFiles with
  | none =>
    cases base with
    | none => exact ⟨hrefl, by intro mR hcontra; cases hcontra⟩
    | some b =>
      refine ⟨cloneMapH_heapStep h h b.files hrefl, ?_⟩
      intro mR hmR
      have : mR = h.next := by
        simpa [mergeStepFilesH, cloneMapH, allocH] using hmR.symm
      rw [this]
  | some fR =>
    cases base with
    | none =>
      refine ⟨cloneMapH_heapStep h h fR hrefl, ?_⟩
      intro mR hmR
      have : mR = h.next := by
        simpa [mergeStepFilesH, cloneMapH, allocH] using hmR.symm
      rw [this]
    | some b =>
      by_cases hmode : updateMode = UpdateMode.merge
      · constructor
        · show HeapStep h (mergeStepFilesH h (some fR) (some b) updateMode).1
          simp only [mergeStepFilesH]
          rw [if_pos hmode]
          exact allocH_heapStep h _ _
            (cloneMapH_heapStep h _ fR (cloneMapH_heapStep h h b.files hrefl))
        · intro mR hmR
          simp only [mergeStepFilesH] at hmR
          rw [if_pos hmode] at hmR
          have : mR = h.next + 2 := by
            simpa [cloneMapH, allocH] using hmR.symm
          omega
      · constructor
        · show HeapStep h (mergeStepFilesH h (some fR) (some b) updateMode).1
          simp only [mergeStepFilesH]
          rw [if_neg hmode]
          exact cloneMapH_heapStep h h fR hrefl
        · intro mR hmR
          simp only [mergeStepFilesH] at hmR
          rw [if_neg hmode] at hmR
          have : mR = h.next := by
            simpa [cloneMapH, allocH] using hmR.symm
          rw [this]

theorem propsStepH_heapStep (h₀ h : Heap) (inputRef baseRef : Option Nat)
    (hs : HeapStep h₀ h) :
    HeapStep h₀ (propsStepH h inputRef baseRef).1 ∧
    (propsStepH h inputRef baseRef).2 = h.next := by
  cases inputRef with
  | some r => exact ⟨cloneMapH_heapStep h₀ h r hs, rfl⟩
  | none =>
    cases baseRef with
    | some r => exact ⟨cloneMapH_heapStep h₀ h r hs, rfl⟩
    | none => exact ⟨allocH_heapStep h₀ h [] hs, rfl⟩

theorem resolveProjectInputH_step (h : Heap) (input : CreateVideoRequestH)
    (prev : Option SessionProjectStateH) (hwf : WfHeap h) :
    HeapStep h (resolveProjectInputH h input prev).1 ∧
    (∀ fR, (resolveProjectInputH h input prev).2.1.files = some fR →
      h.next ≤ fR) ∧
    h.next ≤ (resolveProjectInputH h input prev).2.1.defaultProps ∧
    h.next ≤ (resolveProjectInputH h input prev).2.1.inputProps := by
  set base := if input.usePreviousProject.getD true = true then prev else none
    with hbase
  set fs := mergeStepFilesH h input.files base (input.updateMode.getD UpdateMode.merge)
    with hfs
  have hm := mergeStepFilesH_heapStep h input.files base
    (input.updateMode.getD UpdateMode.merge) hwf
  have hstep_ad : HeapStep h
      (match fs.2 with
        | some mR => deleteFilesFromMapH fs.1 mR (input.deleteFiles.getD [])
        | none => (fs.1, 0)).1 := by
    cases hfs2 : fs.2 with
    | none => exact hm.1
    | some mR =>
      exact deleteFilesFromMapH_heapStep h fs.1 mR _ hm.1 (hm.2 mR hfs2)
  set ad := (match fs.2 with
    | some mR => deleteFilesFromMapH fs.1 mR (input.deleteFiles.getD [])
    | none => (fs.1, 0)) with had
  set dS := propsStepH ad.1 input.defaultProps (base.map (·.defaultProps)) with hdS
  set iS := propsStepH dS.1 input.inputProps (base.map (·.inputProps)) with hiS
  have hd := propsStepH_heapStep h ad.1 input.defaultProps
    (base.map (·.defaultProps)) hstep_ad
  have hi := propsStepH_heapStep h dS.1 input.inputProps
    (base.map (·.inputProps)) hd.1
  refine ⟨?_, ?_, ?_, ?_⟩
  · show HeapStep h iS.1
    exact hi.1
  · intro fR hfR
    exact hm.2 fR hfR
  · show h.next ≤ dS.2
    rw [hd.2]
    exact hstep_ad.2.1
  · show h.next ≤ iS.2
    rw [hi.2]
    exact hd.1.2.1

/-- C10: `resolveProjectInput` never mutates its arguments.  At the heap
level, with a well-formed entry heap and a previous project whose `files`,
`defaultProps` and `inputProps` references pre-exist: every pre-existing
reference — in particular each of the previous project's three records —
reads unchanged after the call (so the `deleteFiles` removals never alter
stored session state), and the returned `files`, `defaultProps` and
`inputProps` references are freshly allocated, hence distinct from the
previous project's. -/
theorem resolveProjectInputH_frame (h : Heap) (input : CreateVideoRequestH)
    (p : SessionProjectStateH) (hwf : WfHeap h) (hpf : p.files < h.next)
    (hpd : p.defaultProps < h.next) (hpi : p.inputProps < h.next) :
    (∀ r, r < h.next →
      readH (resolveProjectInputH h input (some p)).1 r = readH h r) ∧
    (∀ fR, (resolveProjectInputH h input (some p)).2.1.files = some fR →
      h.next ≤ fR ∧ fR ≠ p.files) ∧
    (h.next ≤ (resolveProjectInputH h input (some p)).2.1.defaultProps ∧
      (resolveProjectInputH h input (some p)).2.1.defaultProps ≠ p.defaultProps) ∧
    (h.next ≤ (resolveProjectInputH h input (some p)).2.1.inputProps ∧
      (resolveProjectInputH h input (some p)).2.1.inputProps ≠ p.inputProps) ∧
    readH (resolveProjectInputH h input (some p)).1 p.files = readH h p.files ∧
    readH (resolveProjectInputH h input (some p)).1 p.defaultProps =
      readH h p.defaultProps ∧
    readH (resolveProjectInputH h input (some p)).1 p.inputProps =
      readH h p.inputProps := by
  have hs := resolveProjectInputH_step h input (some p) hwf
  refine ⟨hs.1.2.2, ?_, ⟨hs.2.2.1, ?_⟩, ⟨hs.2.2.2, ?_⟩, ?_, ?_, ?_⟩
  · intro fR hfR
    have hle := hs.2.1 fR hfR
    exact ⟨hle, fun hc =>
      Nat.lt_irrefl p.files (Nat.lt_of_lt_of_le hpf (hc ▸ hle))⟩
  · intro hc
    exact Nat.lt_irrefl p.defaultProps (Nat.lt_of_lt_of_le hpd (hc ▸ hs.2.2.1))
  · intro hc
    exact Nat.lt_irrefl p.inputProps (Nat.lt_of_lt_of_le hpi (hc ▸ hs.2.2.2))
  · exact hs.1.2.2 p.files hpf
  · exact hs.1.2.2 p.defaultProps hpd
  · exact hs.1.2.2 p.inputProps hpi

/-- Concrete three-cell heap for the frame witness. -/
def heapC10 : Heap :=
  { cells := [(0, [("/a", "1"), ("/b", "2")]), (1, [("p", "1")]), (2, [])],
    next := 3 }

/-- Previous-project references into `heapC10`. -/
def prevC10 : SessionProjectStateH :=
  { files := 0, defaultProps := 1, inputProps := 2 }

/-- A request that triggers the in-place `deleteFiles` mutation path. -/
def reqC10 : CreateVideoRequestH := { deleteFiles := some ["/a"] }

/-- C10 witness: after resolving a delete-bearing request against the
concrete heap, the previous project's three records read unchanged and the
returned props references are fresh. -/
theorem resolveProjectInputH_frame_witness :
    readH (resolveProjectInputH heapC10 reqC10 (some prevC10)).1 0 =
      readH heapC10 0 ∧
    readH (resolveProjectInputH heapC10 reqC10 (some prevC10)).1 1 =
      readH heapC10 1 ∧
    readH (resolveProjectInputH heapC10 reqC10 (some prevC10)).1 2 =
      readH heapC10 2 ∧
    (resolveProjectInputH heapC10 reqC10 (some prevC10)).2.1.defaultProps ≠ 1 := by
  have h := resolveProjectInputH_frame heapC10 reqC10 prevC10
    (by unfold WfHeap; decide) (by decide) (by decide) (by decide)
  exact ⟨h.1 0 (by decide), h.1 1 (by decide), h.1 2 (by decide), h.2.2.1.2⟩
